import Mathlib

/-!
# gninagrid: atom-type mapping and driver

A shallow embedding of `src/gninagrid/gninagrid.cpp`.

Modelling conventions.
* A `std::string` is a Lean `String`, one `Char` per C++ `char`; `size()` is `String.length`.
* `exit(c)` is an `Except.error c` carrying the argument given to `exit`.
* `int cnt` is an unbounded `Int` (a mapping file has far fewer than `2^31` lines);
  `unsigned ligcnt` wraps modulo `2^32`.
* `std::getline` and `boost::split` (token compression off, the default) are library
  routines; their documented behaviour is transcribed in `getlines` and `split`.
* `atom_type.h`, `options.h`, `nngridder.h` and `molgetter.h` lie outside this file's
  scope: the raw-type table, the autocenter helper and the gridder are parameters, and the
  option record holds the fields that `parse_options` fills.
-/

set_option autoImplicit false
set_option exponentiation.threshold 4096

namespace gninagrid

/-! ## Text primitives -/

/-- Successive results of `std::getline(in, line)` on a stream holding `s`, until the call
fails: the text is cut at every newline, the newline is dropped, and a final piece is a line
only when it holds at least one character. -/
def getlineChars : List Char → List (List Char)
  | [] => []
  | c :: cs =>
    if c = '\n' then [] :: getlineChars cs
    else
      match getlineChars cs with
      | [] => [[c]]
      | l :: ls => (c :: l) :: ls

/-- Lines of a file, as the `while(getline(in, line))` loop sees them. -/
def getlines (content : String) : List String :=
  (getlineChars content.data).map String.mk

/-- The predicate `boost::is_any_of(set)`. -/
def is_any_of (set : String) (c : Char) : Bool :=
  set.data.contains c

/-- Tokens of `boost::split` with `token_compress_off`: one more token than there are
delimiters in the input, so the empty input yields the single token `""`. -/
def splitChars (pred : Char → Bool) : List Char → List (List Char)
  | [] => [[]]
  | c :: cs =>
    if pred c then [] :: splitChars pred cs
    else
      match splitChars pred cs with
      | [] => [[c]]
      | t :: ts => (c :: t) :: ts

/-- The call `split(types, line, pred)`; the result is the new value of `types`. -/
def split (line : String) (pred : Char → Bool) : List String :=
  (splitChars pred line.data).map String.mk

/-! ## Raw atom types -/

/-- The part of `atom_type.h` that `createAtomTypeMap` uses: the number of raw types, the
hydrogen test, and the name lookup (a value that is not below `NumTypes` means the name is
unknown). -/
structure AtomTypes where
  NumTypes : Nat
  is_hydrogen : Nat → Bool
  string_to_smina_type : String → Nat

/-- The default-mapping loop `for(int i = 0; i < NumTypes; i++)`, run over the indices still
to visit, with the current map and counter. -/
def defaultLoop (T : AtomTypes) : List Nat → List Int → Int → List Int × Int
  | [], map, cnt => (map, cnt)
  | i :: rest, map, cnt =>
    if !T.is_hydrogen i then defaultLoop T rest (map.set i cnt) (cnt + 1)
    else defaultLoop T rest map cnt

/-- The inner loop over the tokens of one line; `Except.error c` is `exit(c)`. -/
def tokenLoop (T : AtomTypes) (cnt : Int) : List String → List Int → Except Int (List Int)
  | [], map => .ok map
  | name :: rest, map =>
    let t := T.string_to_smina_type name
    if t < T.NumTypes then tokenLoop T cnt rest (map.set t cnt)
    else if name.length > 0 then .error (-1)
    else tokenLoop T cnt rest map

/-- The loop `while(getline(in, line))` over the lines still to read. -/
def lineLoop (T : AtomTypes) : List String → List Int → Int → Except Int (List Int × Int)
  | [], map, cnt => .ok (map, cnt)
  | line :: rest, map, cnt =>
    let types := split line (is_any_of "\t \n")
    match tokenLoop T cnt types map with
    | .error c => .error c
    | .ok map1 => lineLoop T rest map1 (if types.length > 0 then cnt + 1 else cnt)

/-- The function `createAtomTypeMap(fname, map)`. `files fname` is the content of the file
when `ifstream in(fname)` succeeds and `none` when it cannot be opened. The result is the
final `map` together with the returned count, or the exit code. -/
def createAtomTypeMap (T : AtomTypes) (files : String → Option String) (fname : String) :
    Except Int (List Int × Int) :=
  let map : List Int := List.replicate T.NumTypes (-1)
  if fname.length = 0 then
    .ok (defaultLoop T (List.range T.NumTypes) map 0)
  else
    match files fname with
    | none => .error (-1)
    | some content => lineLoop T (getlines content) map 0

/-- Modelled from the spec: the table of `atom_type.h` is absent, so concrete evaluations
use this instance, which holds the four types of the spec's mapping example: hydrogen 0,
carbon 1 (`C`), nitrogen 2 (`N`), oxygen 3 (`O`); any other name gives `NumTypes`. -/
def sampleTypes : AtomTypes where
  NumTypes := 4
  is_hydrogen := fun i => i == 0
  string_to_smina_type := fun name =>
    if name = "H" then 0 else if name = "C" then 1 else if name = "N" then 2
    else if name = "O" then 3 else 4

/-- A file system holding one mapping file, `name`, with the given content. -/
def oneFile (name content : String) : String → Option String :=
  fun f => if f = name then some content else none

/-- Number of non-hydrogen raw types with an id below `i`. -/
def heavyBelow (T : AtomTypes) (i : Nat) : Nat :=
  ((List.range i).filter (fun j => !T.is_hydrogen j)).length

/-- Whether some token of `line` is a name of the raw type `t`. -/
def namesType (T : AtomTypes) (line : String) (t : Nat) : Bool :=
  (split line (is_any_of "\t \n")).any (fun name => T.string_to_smina_type name == t)

/-- Value of `cnt` after the `while(getline(in, line))` loop has read `lines`. -/
def lineCounter : List String → Int
  | [] => 0
  | line :: rest =>
    lineCounter rest + (if (split line (is_any_of "\t \n")).length > 0 then 1 else 0)

/-! ## Double precision -/

/-- An IEEE 754 binary64 value. `fin n` stands for the finite value `n * 2^(-1074)`: every
finite double is an integer multiple of the smallest subnormal. The sign of zero and the
payload of a NaN are not kept. -/
inductive Dbl
  | nan
  | inf (neg : Bool)
  | fin (n : Int)
  deriving DecidableEq, Repr

/-- Number of low bits that do not fit in a 53-bit significand: the largest `sh` below
`4096` with `m / 2^sh ≥ 2^52`, found by bisection (`0` when `m < 2^53`). Exact sums of two
doubles are below `2^2100` in the scaled representation. -/
def dropBits (m : Nat) : Nat :=
  [2048, 1024, 512, 256, 128, 64, 32, 16, 8, 4, 2, 1].foldl
    (fun sh b => if m / 2 ^ (sh + b) ≥ 2 ^ 52 then sh + b else sh) 0

/-- Rounding of a magnitude to 53 significant bits, to nearest, ties to even. -/
def round53 (m : Nat) : Nat :=
  let sh := dropBits m
  let q := m / 2 ^ sh
  let r := m % 2 ^ sh
  let q1 := if 2 * r > 2 ^ sh ∨ (2 * r = 2 ^ sh ∧ q % 2 = 1) then q + 1 else q
  q1 * 2 ^ sh

/-- The double nearest to the exact value `v * 2^(-1074)`; a rounded magnitude of `2^1024`
or more overflows to an infinity. -/
def Dbl.ofExact (v : Int) : Dbl :=
  let m := round53 v.natAbs
  if m ≥ 2 ^ 2098 then .inf (decide (v < 0))
  else .fin (if v < 0 then -(m : Int) else (m : Int))

/-- Addition of doubles in the default rounding mode. -/
def Dbl.add : Dbl → Dbl → Dbl
  | .nan, _ => .nan
  | _, .nan => .nan
  | .inf a, .inf b => if a = b then .inf a else .nan
  | .inf a, .fin _ => .inf a
  | .fin _, .inf b => .inf b
  | .fin a, .fin b => Dbl.ofExact (a + b)

/-- The test `isfinite(v)`. -/
def isfinite : Dbl → Bool
  | .fin _ => true
  | _ => false

/-- The largest finite double, `(2^53 - 1) * 2^971`. -/
def DBL_MAX : Dbl := .fin (Int.ofNat ((2 ^ 53 - 1) * 2 ^ 2045))

/-! ## Driver -/

/-- The exception `file_error`: the offending path and the direction (`in_` for reading). -/
structure file_error where
  name : String
  in_ : Bool
  deriving DecidableEq, Repr

/-- The option record `cmdoptions` of `options.h`, with the fields `parse_options` fills. -/
structure cmdoptions where
  receptorfile : String
  ligandfile : String
  outname : String
  ligoutname : String
  outmap : Bool
  dim : Dbl
  res : Dbl
  binary : Bool
  x : Dbl
  y : Dbl
  z : Dbl
  centerfile : String
  recmap : String
  ligmap : String
  help : Bool
  version : Bool
  verbosity : Int
  deriving DecidableEq, Repr

/-- The behaviour of a constructed `NNGridder` that `main` relies on. `molecules` are the
outcomes of the successive `readMolecule()` calls that find a molecule (each returns `true`
or throws); once they are used up `readMolecule()` returns `false`. -/
structure NNGridder where
  getParamString : Bool → Bool → String
  molecules : List (Except file_error Unit)
  outputLMDB : String → Bool → Bool → Except file_error Unit
  outputMAP : String → Except file_error Unit

/-- Calls that `main` makes to its collaborators, in the order made. -/
inductive Event
  | autobox (file : String)
  | gridder (opt : cmdoptions) (recmap ligmap : List Int)
  | lmdb (path : String) (outputrec outputlig : Bool)
  | map (base : String)
  deriving DecidableEq, Repr

/-- Everything outside `gninagrid.cpp` that a run depends on: the raw-type table, the
readable files with their content, the helper `setup_autobox` (given a molecule file it
answers a centre, the only output `main` keeps, or throws), and the constructor
`NNGridder gridder(opt, recmap, ligmap)` (it answers the gridder or throws). -/
structure World where
  types : AtomTypes
  files : String → Option String
  setup_autobox : String → Except file_error (Dbl × Dbl × Dbl)
  newGridder : cmdoptions → List Int → List Int → Except file_error NNGridder

/-- Modelled from the spec: the default of the third parameter of `outputLMDB`, declared in
`nngridder.h`, which is absent. The spec's binary-map mode writes "receptor-then-ligand or
ligand-only", so the two-argument call always writes the ligand channels. -/
def outputLMDB_outputlig_default : Bool := true

/-- Digits of `n`, most significant first, with `fuel` bounding the number of digits. -/
def decimalDigits : Nat → Nat → List Char
  | 0, _ => []
  | fuel + 1, n =>
    if n < 10 then [Nat.digitChar n]
    else decimalDigits fuel (n / 10) ++ [Nat.digitChar (n % 10)]

/-- The conversion `lexical_cast<string>(ligcnt)` of an unsigned number. -/
def lexical_cast (n : Nat) : String :=
  String.mk (decimalDigits (n + 1) n)

/-- The function `parse_options`. `parsed` is what the `boost::program_options` calls leave
in `o`, or `none` when they throw. The result is the returned flag, or the exit code. -/
def parse_options (parsed : Option cmdoptions) : Except Int (Bool × cmdoptions) :=
  match parsed with
  | none => .error (-1)
  | some o =>
    if o.help then .ok (false, o)
    else if o.version then .ok (false, o)
    else .ok (true, o)

/-- The block of `main` under `//figure out grid center`: the calls made and the options
afterwards, or the `file_error` thrown by the helper. -/
def resolveCenter (W : World) (opt : cmdoptions) :
    List Event × Except file_error cmdoptions :=
  if !isfinite (Dbl.add (Dbl.add opt.x opt.y) opt.z) then
    let ligandfile := if opt.centerfile.length > 0 then opt.centerfile else opt.ligandfile
    match W.setup_autobox ligandfile with
    | .error e => ([.autobox ligandfile], .error e)
    | .ok (cx, cy, cz) => ([.autobox ligandfile], .ok { opt with x := cx, y := cy, z := cz })
  else ([], .ok opt)

/-- The loop `while(gridder.readMolecule())` of `main`, over the molecules still to read,
with the current `ligcnt`. -/
def poseLoop (opt : cmdoptions) (g : NNGridder) (parmstr : String) :
    List (Except file_error Unit) → Nat → List Event × Except file_error Unit
  | [], _ => ([], .ok ())
  | .error e :: _, _ => ([], .error e)
  | .ok () :: rest, ligcnt =>
    let base :=
      if opt.ligoutname.length = 0 then opt.outname ++ "_" ++ lexical_cast ligcnt
      else opt.ligoutname ++ "_" ++ lexical_cast ligcnt
    if opt.outmap then
      match g.outputMAP base with
      | .error e => ([.map base], .error e)
      | .ok () =>
        let r := poseLoop opt g parmstr rest ((ligcnt + 1) % 2 ^ 32)
        (.map base :: r.1, r.2)
    else
      let outname := base ++ parmstr ++ ".binmap"
      let outputrec := opt.ligoutname.length == 0
      match g.outputLMDB outname outputrec outputLMDB_outputlig_default with
      | .error e => ([.lmdb outname outputrec outputLMDB_outputlig_default], .error e)
      | .ok () =>
        let r := poseLoop opt g parmstr rest ((ligcnt + 1) % 2 ^ 32)
        (.lmdb outname outputrec outputLMDB_outputlig_default :: r.1, r.2)

/-- The part of `main` from `string parmstr;` to the end of the pose loop. -/
def writeGrids (opt : cmdoptions) (g : NNGridder) : List Event × Except file_error Unit :=
  if !opt.outmap then
    if opt.ligoutname.length > 1 then
      let outname := opt.outname ++ "." ++ g.getParamString true false ++ ".binmap"
      match g.outputLMDB outname true false with
      | .error e => ([.lmdb outname true false], .error e)
      | .ok () =>
        let r := poseLoop opt g ("." ++ g.getParamString false true) g.molecules 0
        (.lmdb outname true false :: r.1, r.2)
    else
      poseLoop opt g ("." ++ g.getParamString true true) g.molecules 0
  else
    poseLoop opt g "" g.molecules 0

/-- Outcome of a run: the exit status and the collaborator calls made. -/
structure Run where
  status : Int
  trace : List Event
  deriving DecidableEq, Repr

/-- The function `main`. A `file_error` is caught and gives `-1`; `exit(c)` gives `c`;
reaching the end of `main` gives `0`. -/
def main (W : World) (parsed : Option cmdoptions) : Run :=
  match parse_options parsed with
  | .error c => ⟨c, []⟩
  | .ok (false, _) => ⟨0, []⟩
  | .ok (true, opt0) =>
    match resolveCenter W opt0 with
    | (tr1, .error _) => ⟨-1, tr1⟩
    | (tr1, .ok opt) =>
      match createAtomTypeMap W.types W.files opt.recmap with
      | .error c => ⟨c, tr1⟩
      | .ok (recmap, _) =>
        match createAtomTypeMap W.types W.files opt.ligmap with
        | .error c => ⟨c, tr1⟩
        | .ok (ligmap, _) =>
          match W.newGridder opt recmap ligmap with
          | .error _ => ⟨-1, tr1 ++ [.gridder opt recmap ligmap]⟩
          | .ok g =>
            match writeGrids opt g with
            | (tr2, .error _) => ⟨-1, tr1 ++ .gridder opt recmap ligmap :: tr2⟩
            | (tr2, .ok ()) => ⟨0, tr1 ++ .gridder opt recmap ligmap :: tr2⟩

/-- Whether an event is a call that writes a grid file. -/
def Event.isOutput : Event → Bool
  | .lmdb _ _ _ => true
  | .map _ => true
  | _ => false

/-! ## Reference definitions used in statements -/

/-- Name of the binary-map file of pose `k` (0-based): the base name (the ligand base name
when one is given), `_`, the decimal of the pose counter, `.`, the gridder's parameter
string (ligand-only when a ligand base name is given, combined otherwise), `.binmap`. -/
def binmapName (opt : cmdoptions) (g : NNGridder) (k : Nat) : String :=
  (if opt.ligoutname.length = 0 then opt.outname else opt.ligoutname) ++ "_"
    ++ lexical_cast (k % 2 ^ 32) ++ "."
    ++ (if opt.ligoutname.length = 0 then g.getParamString true true
        else g.getParamString false true)
    ++ ".binmap"

/-- A mapping file name on which `createAtomTypeMap` must end the process: the file cannot
be opened, or one of its non-empty tokens is not a known type name. -/
def mappingFatal (T : AtomTypes) (files : String → Option String) (fname : String) : Prop :=
  fname.length ≠ 0 ∧
    (files fname = none ∨ ∃ content, files fname = some content ∧
      ∃ line ∈ getlines content, ∃ name ∈ split line (is_any_of "\t "),
        name.length > 0 ∧ ¬ T.string_to_smina_type name < T.NumTypes)

/-- The file the autocenter helper is pointed at. -/
def autocenterFile (opt : cmdoptions) : String :=
  if opt.centerfile.length > 0 then opt.centerfile else opt.ligandfile

/-- The value of the variable `parmstr` of `main` when the pose loop starts (lines
189 to 211): empty in AD4-map mode, otherwise `.` followed by the gridder's parameter
string, ligand-only when `opt.ligoutname.size() > 1` and combined when not. -/
def parmstrOf (opt : cmdoptions) (g : NNGridder) : String :=
  if !opt.outmap then
    if opt.ligoutname.length > 1 then "." ++ g.getParamString false true
    else "." ++ g.getParamString true true
  else ""

/-- What the gridder answers to the output call that the body of the pose loop (lines 219
to 233) makes when the counter is `ligcnt`: `outputMAP(base)` in AD4-map mode,
`outputLMDB(base + parmstr + ".binmap", opt.ligoutname.size() == 0)` otherwise. -/
def poseCall (opt : cmdoptions) (g : NNGridder) (parmstr : String) (ligcnt : Nat) :
    Except file_error Unit :=
  let base :=
    if opt.ligoutname.length = 0 then opt.outname ++ "_" ++ lexical_cast ligcnt
    else opt.ligoutname ++ "_" ++ lexical_cast ligcnt
  if opt.outmap then g.outputMAP base
  else
    g.outputLMDB (base ++ parmstr ++ ".binmap") (opt.ligoutname.length == 0)
      outputLMDB_outputlig_default

/-- What the gridder answers to the receptor-only call of lines 197 to 203,
`outputLMDB(outname, true, false)`; the call is made only in binary-map mode with
`opt.ligoutname.size() > 1`, and nothing can fail when it is not made. -/
def receptorCall (opt : cmdoptions) (g : NNGridder) : Except file_error Unit :=
  if !opt.outmap then
    if opt.ligoutname.length > 1 then
      g.outputLMDB (opt.outname ++ "." ++ g.getParamString true false ++ ".binmap") true false
    else .ok ()
  else .ok ()

/-! ## Sample collaborators for concrete evaluations -/

/-- A gridder with `n` readable molecules whose outputs all succeed; its parameter string
tells the channel selection apart. -/
def sampleGridder (n : Nat) : NNGridder where
  getParamString := fun r l =>
    "24_0.5" ++ (if r then "_rec" else "") ++ (if l then "_lig" else "")
  molecules := List.replicate n (.ok ())
  outputLMDB := fun _ _ _ => .ok ()
  outputMAP := fun _ => .ok ()

/-- A world with the sample table, no mapping files, an autocenter helper that answers
the origin, and gridders with two molecules. -/
def sampleWorld : World where
  types := sampleTypes
  files := fun _ => none
  setup_autobox := fun _ => .ok (.fin 0, .fin 0, .fin 0)
  newGridder := fun _ _ _ => .ok (sampleGridder 2)

/-- Options of a plain binary-map run, centre at the origin. -/
def sampleOptions : cmdoptions where
  receptorfile := "rec.pdb"
  ligandfile := "lig.sdf"
  outname := "out"
  ligoutname := ""
  outmap := false
  dim := .fin (Int.ofNat (24 * 2 ^ 1074))
  res := .fin (Int.ofNat (2 ^ 1073))
  binary := false
  x := .fin 0
  y := .fin 0
  z := .fin 0
  centerfile := ""
  recmap := ""
  ligmap := ""
  help := false
  version := false
  verbosity := 1

/-- A gridder whose second `readMolecule()` throws. -/
def readErrorGridder : NNGridder where
  getParamString := (sampleGridder 0).getParamString
  molecules := [.ok (), .error { name := "lig.sdf", in_ := true }]
  outputLMDB := fun _ _ _ => .ok ()
  outputMAP := fun _ => .ok ()

/-- A gridder with two molecules that cannot write the file of the second pose. -/
def writeErrorGridder : NNGridder where
  getParamString := (sampleGridder 0).getParamString
  molecules := [.ok (), .ok ()]
  outputLMDB := fun path _ _ =>
    if path = "out_1.24_0.5_rec_lig.binmap" then .error { name := path, in_ := false }
    else .ok ()
  outputMAP := fun _ => .ok ()

/-- The sample world with another gridder, or none when the constructor throws. -/
def worldWith (g : Except file_error NNGridder) : World where
  types := sampleTypes
  files := fun _ => none
  setup_autobox := fun _ => .error { name := "ref.sdf", in_ := true }
  newGridder := fun _ _ _ => g

/-! ## The default mapping -/

theorem heavy_range' (T : AtomTypes) (s n : Nat) :
    heavyBelow T s + ((List.range' s n).filter (fun j => !T.is_hydrogen j)).length
      = heavyBelow T (s + n) := by
  unfold heavyBelow
  rw [List.range_eq_range', List.range_eq_range', ← List.length_append, ← List.filter_append]
  congr 2
  have := List.range'_append 0 s n 1
  simpa [Nat.add_comm] using this

theorem defaultLoop_spec (T : AtomTypes) (n : Nat) :
    ∀ (s : Nat) (map : List Int) (cnt : Int), s + n ≤ map.length →
      (defaultLoop T (List.range' s n) map cnt).2
          = cnt + (((List.range' s n).filter (fun j => !T.is_hydrogen j)).length : Int) ∧
      (defaultLoop T (List.range' s n) map cnt).1.length = map.length ∧
      (∀ j, j < s ∨ s + n ≤ j → (defaultLoop T (List.range' s n) map cnt).1[j]? = map[j]?) ∧
      (∀ j, s ≤ j → j < s + n → (defaultLoop T (List.range' s n) map cnt).1[j]? =
        if T.is_hydrogen j then map[j]?
        else some (cnt +
          (((List.range' s (j - s)).filter (fun i => !T.is_hydrogen i)).length : Int))) := by
  induction n with
  | zero =>
    intro s map cnt _
    refine ⟨by simp [defaultLoop], by simp [defaultLoop], by simp [defaultLoop], ?_⟩
    intro j h1 h2
    omega
  | succ n ih =>
    intro s map cnt hlen
    rw [List.range'_succ]
    by_cases hh : T.is_hydrogen s = true
    · have hstep : defaultLoop T (s :: List.range' (s + 1) n) map cnt
          = defaultLoop T (List.range' (s + 1) n) map cnt := by
        simp [defaultLoop, hh]
      rw [hstep]
      obtain ⟨h1, h2, h3, h4⟩ := ih (s + 1) map cnt (by omega)
      refine ⟨?_, h2, ?_, ?_⟩
      · rw [h1]; simp [List.filter_cons, hh]
      · intro j hj
        exact h3 j (by omega)
      · intro j hsj hjn
        rcases Nat.eq_or_lt_of_le hsj with heq | hlt
        · subst heq
          rw [h3 s (by omega)]
          simp [hh]
        · rw [h4 j (by omega) (by omega)]
          have hjs : j - s = (j - (s + 1)) + 1 := by omega
          rw [hjs, List.range'_succ]
          simp [List.filter_cons, hh]
    · have hh' : T.is_hydrogen s = false := by simpa using hh
      have hstep : defaultLoop T (s :: List.range' (s + 1) n) map cnt
          = defaultLoop T (List.range' (s + 1) n) (map.set s cnt) (cnt + 1) := by
        simp [defaultLoop, hh']
      rw [hstep]
      obtain ⟨h1, h2, h3, h4⟩ := ih (s + 1) (map.set s cnt) (cnt + 1)
        (by rw [List.length_set]; omega)
      refine ⟨?_, ?_, ?_, ?_⟩
      · rw [h1]; simp [List.filter_cons, hh']; ring
      · rw [h2]; simp
      · intro j hj
        rw [h3 j (by omega)]
        exact List.getElem?_set_ne (by omega)
      · intro j hsj hjn
        rcases Nat.eq_or_lt_of_le hsj with heq | hlt
        · subst heq
          rw [h3 s (by omega), List.getElem?_set_self (by omega)]
          simp [hh']
        · rw [h4 j (by omega) (by omega)]
          have hjs : j - s = (j - (s + 1)) + 1 := by omega
          rw [hjs, List.range'_succ, List.getElem?_set_ne (by omega)]
          by_cases hj : T.is_hydrogen j = true
          · simp [hj]
          · simp [hj, List.filter_cons, hh']
            ring

/-! ## The mapping file -/

theorem splitChars_ne_nil (pred : Char → Bool) (l : List Char) : splitChars pred l ≠ [] := by
  cases l with
  | nil => simp [splitChars]
  | cons c cs =>
    unfold splitChars
    split
    · simp
    · split <;> simp

theorem split_length_pos (line : String) (pred : Char → Bool) :
    0 < (split line pred).length := by
  unfold split
  rw [List.length_map]
  exact List.length_pos.mpr (splitChars_ne_nil pred line.data)

theorem lineCounter_eq_length (lines : List String) :
    lineCounter lines = (lines.length : Int) := by
  induction lines with
  | nil => rfl
  | cons line rest ih =>
    simp only [lineCounter, ih, split_length_pos, gt_iff_lt, if_true, List.length_cons]
    push_cast
    ring

theorem tokenLoop_error_code (T : AtomTypes) (cnt : Int) :
    ∀ (toks : List String) (map : List Int) (c : Int),
      tokenLoop T cnt toks map = .error c → c = -1 := by
  intro toks
  induction toks with
  | nil => intro map c h; simp [tokenLoop] at h
  | cons name rest ih =>
    intro map c h
    unfold tokenLoop at h
    simp only at h
    split at h
    · exact ih _ c h
    · split at h
      · cases h; rfl
      · exact ih _ c h

theorem tokenLoop_error_iff (T : AtomTypes) (cnt : Int) :
    ∀ (toks : List String) (map : List Int),
      (∃ c, tokenLoop T cnt toks map = .error c) ↔
        ∃ name ∈ toks, name.length > 0 ∧ ¬ T.string_to_smina_type name < T.NumTypes := by
  intro toks
  induction toks with
  | nil => intro map; simp [tokenLoop]
  | cons name rest ih =>
    intro map
    unfold tokenLoop
    simp only
    by_cases h1 : T.string_to_smina_type name < T.NumTypes
    · rw [if_pos h1, ih]
      simp [h1]
    · rw [if_neg h1]
      by_cases h2 : name.length > 0
      · rw [if_pos h2]
        constructor
        · intro _
          exact ⟨name, by simp, h2, h1⟩
        · intro _
          exact ⟨-1, rfl⟩
      · rw [if_neg h2, ih]
        simp [h2]

theorem tokenLoop_ok (T : AtomTypes) (cnt : Int) :
    ∀ (toks : List String) (map m : List Int), map.length = T.NumTypes →
      tokenLoop T cnt toks map = .ok m →
        m.length = T.NumTypes ∧
        ∀ t, t < T.NumTypes → m[t]? =
          if toks.any (fun name => T.string_to_smina_type name == t) then some cnt
          else map[t]? := by
  intro toks
  induction toks with
  | nil =>
    intro map m hlen h
    simp only [tokenLoop, Except.ok.injEq] at h
    subst h
    exact ⟨hlen, by simp⟩
  | cons name rest ih =>
    intro map m hlen h
    unfold tokenLoop at h
    simp only at h
    by_cases h1 : T.string_to_smina_type name < T.NumTypes
    · rw [if_pos h1] at h
      obtain ⟨hl, hv⟩ := ih _ m (by rw [List.length_set]; exact hlen) h
      refine ⟨hl, ?_⟩
      intro t ht
      rw [hv t ht, List.any_cons]
      by_cases h3 : T.string_to_smina_type name = t
      · subst h3
        rw [List.getElem?_set_self (by omega)]
        simp
      · rw [List.getElem?_set_ne h3]
        simp [h3]
    · rw [if_neg h1] at h
      by_cases h2 : name.length > 0
      · rw [if_pos h2] at h
        cases h
      · rw [if_neg h2] at h
        obtain ⟨hl, hv⟩ := ih _ m hlen h
        refine ⟨hl, ?_⟩
        intro t ht
        rw [hv t ht, List.any_cons]
        have h3 : T.string_to_smina_type name ≠ t := by omega
        simp [h3]

theorem lineLoop_error_code (T : AtomTypes) :
    ∀ (lines : List String) (map : List Int) (cnt c : Int),
      lineLoop T lines map cnt = .error c → c = -1 := by
  intro lines
  induction lines with
  | nil => intro map cnt c h; simp [lineLoop] at h
  | cons line rest ih =>
    intro map cnt c h
    unfold lineLoop at h
    simp only at h
    split at h
    · rename_i c1 heq
      cases h
      exact tokenLoop_error_code T cnt _ _ _ heq
    · exact ih _ _ c h

theorem lineLoop_error_iff (T : AtomTypes) :
    ∀ (lines : List String) (map : List Int) (cnt : Int),
      (∃ c, lineLoop T lines map cnt = .error c) ↔
        ∃ line ∈ lines, ∃ name ∈ split line (is_any_of "\t \n"),
          name.length > 0 ∧ ¬ T.string_to_smina_type name < T.NumTypes := by
  intro lines
  induction lines with
  | nil => intro map cnt; simp [lineLoop]
  | cons line rest ih =>
    intro map cnt
    unfold lineLoop
    simp only
    cases heq : tokenLoop T cnt (split line (is_any_of "\t \n")) map with
    | error c1 =>
      have hbad := (tokenLoop_error_iff T cnt _ map).mp ⟨c1, heq⟩
      constructor
      · intro _
        exact ⟨line, by simp, hbad⟩
      · intro _
        exact ⟨c1, rfl⟩
    | ok map1 =>
      have hgood : ¬ ∃ name ∈ split line (is_any_of "\t \n"),
          name.length > 0 ∧ ¬ T.string_to_smina_type name < T.NumTypes := by
        intro hbad
        obtain ⟨c1, hc1⟩ := (tokenLoop_error_iff T cnt _ map).mpr hbad
        rw [heq] at hc1
        cases hc1
      simp only
      rw [ih]
      constructor
      · rintro ⟨l, hl, hx⟩
        exact ⟨l, List.mem_cons_of_mem _ hl, hx⟩
      · rintro ⟨l, hl, hx⟩
        rcases List.mem_cons.mp hl with rfl | hl
        · exact absurd hx hgood
        · exact ⟨l, hl, hx⟩

theorem lineLoop_ok (T : AtomTypes) :
    ∀ (lines : List String) (map m : List Int) (cnt c : Int), map.length = T.NumTypes →
      lineLoop T lines map cnt = .ok (m, c) →
        c = cnt + lineCounter lines ∧ m.length = T.NumTypes ∧
        ∀ t, t < T.NumTypes →
          ((∀ line ∈ lines, namesType T line t = false) → m[t]? = map[t]?) ∧
          (∀ k (hk : k < lines.length), namesType T lines[k] t = true →
            (∀ j (hj : j < lines.length), k < j → namesType T lines[j] t = false) →
            m[t]? = some (cnt + lineCounter (lines.take k))) := by
  intro lines
  induction lines with
  | nil =>
    intro map m cnt c hlen h
    simp only [lineLoop, Except.ok.injEq, Prod.mk.injEq] at h
    obtain ⟨rfl, rfl⟩ := h
    refine ⟨by simp [lineCounter], hlen, ?_⟩
    intro t _
    refine ⟨fun _ => rfl, ?_⟩
    intro k hk
    simp at hk
  | cons line rest ih =>
    intro map m cnt c hlen h
    unfold lineLoop at h
    simp only at h
    cases heq : tokenLoop T cnt (split line (is_any_of "\t \n")) map with
    | error c1 => rw [heq] at h; cases h
    | ok map1 =>
      rw [heq] at h
      simp only at h
      obtain ⟨hl1, hv1⟩ := tokenLoop_ok T cnt _ map map1 hlen heq
      obtain ⟨hc, hl, hv⟩ := ih map1 m _ c hl1 h
      have hinc : (if (split line (is_any_of "\t \n")).length > 0 then cnt + 1 else cnt)
          = cnt + (if (split line (is_any_of "\t \n")).length > 0 then 1 else 0) := by
        split <;> simp
      rw [hinc] at hc hv
      refine ⟨?_, hl, ?_⟩
      · rw [hc]; simp only [lineCounter]; ring
      · intro t ht
        obtain ⟨ha, hb⟩ := hv t ht
        have hfirst := hv1 t ht
        constructor
        · intro hnone
          rw [ha (fun l hmem => hnone l (List.mem_cons_of_mem _ hmem)), hfirst]
          have h0 := hnone line (by simp)
          unfold namesType at h0
          rw [h0]
          simp
        · intro k hk hk1 hlater
          cases k with
          | zero =>
            have hrest : ∀ l ∈ rest, namesType T l t = false := by
              intro l hmem
              obtain ⟨j, hj, rfl⟩ := List.getElem_of_mem hmem
              have := hlater (j + 1) (by simpa using hj) (by omega)
              simpa using this
            rw [ha hrest, hfirst]
            have h0 : namesType T line t = true := by simpa using hk1
            unfold namesType at h0
            rw [h0]
            simp [lineCounter]
          | succ k =>
            have hk' : k < rest.length := by simpa using hk
            have hk1' : namesType T rest[k] t = true := by simpa using hk1
            have hlater' : ∀ j (hj : j < rest.length), k < j →
                namesType T rest[j] t = false := by
              intro j hj hkj
              have := hlater (j + 1) (by simpa using hj) (by omega)
              simpa using this
            rw [hb k hk' hk1' hlater']
            simp only [List.take_succ_cons, lineCounter]
            congr 1
            ring

theorem getlineChars_no_newline (cs : List Char) :
    ∀ l ∈ getlineChars cs, '\n' ∉ l := by
  induction cs with
  | nil => simp [getlineChars]
  | cons c cs ih =>
    intro l hl
    unfold getlineChars at hl
    by_cases hc : c = '\n'
    · rw [if_pos hc] at hl
      rcases List.mem_cons.mp hl with rfl | hl
      · simp
      · exact ih l hl
    · rw [if_neg hc] at hl
      cases hrec : getlineChars cs with
      | nil =>
        rw [hrec] at hl
        simp only [List.mem_singleton] at hl
        subst hl
        simpa using Ne.symm hc
      | cons l0 ls =>
        rw [hrec] at hl ih
        simp only at hl
        rcases List.mem_cons.mp hl with rfl | hl
        · have := ih l0 (by simp)
          simp only [List.mem_cons, not_or]
          exact ⟨Ne.symm hc, this⟩
        · exact ih l (List.mem_cons_of_mem _ hl)

theorem splitChars_congr (p q : Char → Bool) (l : List Char) (h : ∀ c ∈ l, p c = q c) :
    splitChars p l = splitChars q l := by
  induction l with
  | nil => rfl
  | cons c cs ih =>
    have hc := h c (by simp)
    have hrec := ih (fun d hd => h d (List.mem_cons_of_mem _ hd))
    unfold splitChars
    rw [hc, hrec]

theorem is_any_of_newline (c : Char) (hc : c ≠ '\n') :
    is_any_of "\t \n" c = is_any_of "\t " c := by
  simp [is_any_of, hc]

theorem split_getlines (content : String) :
    ∀ line ∈ getlines content,
      split line (is_any_of "\t \n") = split line (is_any_of "\t ") := by
  intro line hline
  unfold getlines at hline
  obtain ⟨l, hl, rfl⟩ := List.mem_map.mp hline
  unfold split
  rw [splitChars_congr (is_any_of "\t \n") (is_any_of "\t ") l]
  intro c hc
  apply is_any_of_newline
  intro heq
  subst heq
  exact getlineChars_no_newline content.data l hl hc

theorem exists_last_line (lines : List String) (P : String → Bool)
    (h : ∃ l ∈ lines, P l = true) :
    ∃ k, ∃ hk : k < lines.length, P lines[k] = true ∧
      ∀ j (hj : j < lines.length), k < j → P lines[j] = false := by
  induction lines with
  | nil => simp at h
  | cons l rest ih =>
    by_cases hrest : ∃ l1 ∈ rest, P l1 = true
    · obtain ⟨k, hk, hPk, hlater⟩ := ih hrest
      refine ⟨k + 1, by simpa using hk, by simpa using hPk, ?_⟩
      intro j hj hkj
      cases j with
      | zero => omega
      | succ j =>
        have := hlater j (by simpa using hj) (by omega)
        simpa using this
    · obtain ⟨l1, hl1, hP⟩ := h
      rcases List.mem_cons.mp hl1 with rfl | hl1
      · refine ⟨0, by simp, by simpa using hP, ?_⟩
        intro j hj hkj
        cases j with
        | zero => omega
        | succ j =>
          have hj' : j < rest.length := by simpa using hj
          have hmem : rest[j] ∈ rest := List.getElem_mem hj'
          have : ¬ P rest[j] = true := fun hc => hrest ⟨_, hmem, hc⟩
          simpa using this
      · exact absurd ⟨l1, hl1, hP⟩ hrest

theorem heavyBelow_succ (T : AtomTypes) (n : Nat) :
    heavyBelow T (n + 1) = heavyBelow T n + (if T.is_hydrogen n then 0 else 1) := by
  unfold heavyBelow
  rw [List.range_succ, List.filter_append, List.length_append]
  by_cases h : T.is_hydrogen n = true <;> simp [h]

theorem heavyBelow_mono (T : AtomTypes) (i j : Nat) (h : i ≤ j) :
    heavyBelow T i ≤ heavyBelow T j := by
  induction j with
  | zero =>
    have : i = 0 := by omega
    subst this
    exact Nat.le_refl _
  | succ j ih =>
    rcases Nat.eq_or_lt_of_le h with heq | hlt
    · subst heq; exact Nat.le_refl _
    · have := ih (by omega)
      rw [heavyBelow_succ]
      omega

theorem heavyBelow_lt (T : AtomTypes) (i j : Nat) (h : i < j) (hi : T.is_hydrogen i = false) :
    heavyBelow T i < heavyBelow T j := by
  have h1 := heavyBelow_mono T (i + 1) j h
  rw [heavyBelow_succ] at h1
  simp only [hi] at h1
  simp at h1
  omega

theorem heavyBelow_surj (T : AtomTypes) (n : Nat) :
    ∀ k, k < heavyBelow T n → ∃ i, i < n ∧ T.is_hydrogen i = false ∧ heavyBelow T i = k := by
  induction n with
  | zero => intro k hk; simp [heavyBelow] at hk
  | succ n ih =>
    intro k hk
    rw [heavyBelow_succ] at hk
    by_cases hlt : k < heavyBelow T n
    · obtain ⟨i, hi, h1, h2⟩ := ih k hlt
      exact ⟨i, by omega, h1, h2⟩
    · by_cases hh : T.is_hydrogen n = true
      · simp [hh] at hk
        omega
      · have hh' : T.is_hydrogen n = false := by simpa using hh
        simp [hh'] at hk
        exact ⟨n, by omega, hh', by omega⟩

theorem defaultLoop_range (T : AtomTypes) :
    (defaultLoop T (List.range T.NumTypes) (List.replicate T.NumTypes (-1)) 0).2
        = (heavyBelow T T.NumTypes : Int) ∧
    (defaultLoop T (List.range T.NumTypes) (List.replicate T.NumTypes (-1)) 0).1.length
        = T.NumTypes ∧
    ∀ i, i < T.NumTypes →
      (defaultLoop T (List.range T.NumTypes) (List.replicate T.NumTypes (-1)) 0).1[i]? =
        if T.is_hydrogen i then some (-1) else some (heavyBelow T i : Int) := by
  rw [List.range_eq_range']
  obtain ⟨h1, h2, _, h4⟩ :=
    defaultLoop_spec T T.NumTypes 0 (List.replicate T.NumTypes (-1)) 0 (by simp)
  refine ⟨?_, by simpa using h2, ?_⟩
  · rw [h1]
    simp [heavyBelow, List.range_eq_range']
  · intro i hi
    rw [h4 i (by omega) (by omega)]
    simp [heavyBelow, List.range_eq_range', hi]

theorem createAtomTypeMap_error_iff (T : AtomTypes) (files : String → Option String)
    (fname : String) (hname : fname.length ≠ 0) :
    (∃ c, createAtomTypeMap T files fname = .error c) ↔
      (files fname = none ∨ ∃ content, files fname = some content ∧
        ∃ line ∈ getlines content, ∃ name ∈ split line (is_any_of "\t \n"),
          name.length > 0 ∧ ¬ T.string_to_smina_type name < T.NumTypes) := by
  unfold createAtomTypeMap
  simp only [hname, if_false]
  cases hf : files fname with
  | none => simp
  | some content =>
    simp only [lineLoop_error_iff, false_or, Option.some.injEq, exists_eq_left', reduceCtorEq]

theorem createAtomTypeMap_error_code (T : AtomTypes) (files : String → Option String)
    (fname : String) (c : Int) (h : createAtomTypeMap T files fname = .error c) : c = -1 := by
  unfold createAtomTypeMap at h
  simp only at h
  split at h
  · cases h
  · split at h
    · cases h; rfl
    · exact lineLoop_error_code T _ _ _ c h

theorem createAtomTypeMap_length (T : AtomTypes) (files : String → Option String)
    (fname : String) (m : List Int) (c : Int)
    (h : createAtomTypeMap T files fname = .ok (m, c)) : m.length = T.NumTypes := by
  unfold createAtomTypeMap at h
  simp only at h
  split at h
  · simp only [Except.ok.injEq] at h
    have hlen := (defaultLoop_range T).2.1
    rw [h] at hlen
    exact hlen
  · split at h
    · cases h
    · exact (lineLoop_ok T _ _ m 0 c (by simp) h).2.1

theorem createAtomTypeMap_file_spec (T : AtomTypes) (files : String → Option String)
    (fname content : String) (m : List Int) (c : Int) (hname : fname.length ≠ 0)
    (hfile : files fname = some content)
    (hres : createAtomTypeMap T files fname = .ok (m, c)) :
    c = lineCounter (getlines content) ∧
    ∀ t, t < T.NumTypes →
      ((∀ line ∈ getlines content, namesType T line t = false) → m[t]? = some (-1)) ∧
      (∀ k (hk : k < (getlines content).length), namesType T (getlines content)[k] t = true →
        (∀ j (hj : j < (getlines content).length), k < j →
          namesType T (getlines content)[j] t = false) →
        m[t]? = some (lineCounter ((getlines content).take k))) := by
  unfold createAtomTypeMap at hres
  simp only [hname, if_false, hfile] at hres
  obtain ⟨h1, _, h3⟩ := lineLoop_ok T _ _ m 0 c (by simp) hres
  refine ⟨by simpa using h1, ?_⟩
  intro t ht
  obtain ⟨ha, hb⟩ := h3 t ht
  constructor
  · intro hnone
    rw [ha hnone]
    simp [ht]
  · intro k hk hk1 hlater
    rw [hb k hk hk1 hlater]
    simp

/-! ## Claims on `createAtomTypeMap` -/

/-- C1: with an empty file name, for every raw-type table, the returned count is the number
of non-hydrogen raw types, every hydrogen type maps to -1, every non-hydrogen type `i` maps
to the number of non-hydrogen types with a smaller id, and distinct non-hydrogen types get
distinct channels. -/
theorem createAtomTypeMap_default (T : AtomTypes) (files : String → Option String) :
    ∃ map, createAtomTypeMap T files "" = .ok (map, (heavyBelow T T.NumTypes : Int)) ∧
      map.length = T.NumTypes ∧
      (∀ i, i < T.NumTypes → T.is_hydrogen i = true → map[i]? = some (-1)) ∧
      (∀ i, i < T.NumTypes → T.is_hydrogen i = false →
        map[i]? = some (heavyBelow T i : Int)) ∧
      (∀ i j, i < T.NumTypes → j < T.NumTypes → T.is_hydrogen i = false →
        T.is_hydrogen j = false → map[i]? = map[j]? → i = j) := by
  obtain ⟨h1, h2, h3⟩ := defaultLoop_range T
  refine ⟨(defaultLoop T (List.range T.NumTypes) (List.replicate T.NumTypes (-1)) 0).1,
    ?_, h2, ?_, ?_, ?_⟩
  · unfold createAtomTypeMap
    simp only [String.length, List.length_nil, if_true]
    rw [← h1]
  · intro i hi hh
    rw [h3 i hi]; simp [hh]
  · intro i hi hh
    rw [h3 i hi]; simp [hh]
  · intro i j hi hj hhi hhj heq
    rw [h3 i hi, h3 j hj] at heq
    simp only [hhi, hhj, Bool.false_eq_true, if_false, Option.some.injEq, Nat.cast_inj] at heq
    rcases Nat.lt_trichotomy i j with hlt | heq' | hgt
    · have := heavyBelow_lt T i j hlt hhi
      omega
    · exact heq'
    · have := heavyBelow_lt T j i hgt hhj
      omega

/-- C2: for a readable mapping file without empty lines, whose tokens are all known type
names and in which no type is named on two different lines, the returned count is the number
of lines, every type named on line `k` (0-based) maps to channel `k`, and every type that
no line names maps to -1. -/
theorem createAtomTypeMap_file_disjoint (T : AtomTypes) (files : String → Option String)
    (fname content : String) (hname : fname.length ≠ 0) (hfile : files fname = some content)
    (hnonempty : ∀ line ∈ getlines content, line ≠ "")
    (hknown : ∀ line ∈ getlines content, ∀ name ∈ split line (is_any_of "\t \n"),
      T.string_to_smina_type name < T.NumTypes)
    (honce : ∀ j (hj : j < (getlines content).length),
      ∀ k (hk : k < (getlines content).length), j ≠ k → ∀ t, t < T.NumTypes →
        ¬ (namesType T (getlines content)[j] t = true ∧
           namesType T (getlines content)[k] t = true)) :
    ∃ m, createAtomTypeMap T files fname = .ok (m, ((getlines content).length : Int)) ∧
      (∀ k (hk : k < (getlines content).length),
        ∀ name ∈ split (getlines content)[k] (is_any_of "\t \n"),
          m[T.string_to_smina_type name]? = some (k : Int)) ∧
      (∀ t, t < T.NumTypes → (∀ line ∈ getlines content, namesType T line t = false) →
        m[t]? = some (-1)) := by
  have _ := hnonempty
  cases hres : createAtomTypeMap T files fname with
  | error c =>
    have hbad := (createAtomTypeMap_error_iff T files fname hname).mp ⟨c, hres⟩
    rcases hbad with hnone | ⟨content1, hc1, line, hline, name, hn, _, hunknown⟩
    · rw [hfile] at hnone; cases hnone
    · rw [hfile] at hc1
      cases hc1
      exact absurd (hknown line hline name hn) hunknown
  | ok r =>
    obtain ⟨m, c⟩ := r
    obtain ⟨hc, hv⟩ := createAtomTypeMap_file_spec T files fname content m c hname hfile hres
    rw [lineCounter_eq_length] at hc
    subst hc
    refine ⟨m, rfl, ?_, ?_⟩
    · intro k hk name hmem
      have ht := hknown _ (List.getElem_mem hk) name hmem
      have hnames : namesType T (getlines content)[k] (T.string_to_smina_type name) = true := by
        unfold namesType
        rw [List.any_eq_true]
        exact ⟨name, hmem, by simp⟩
      have hlater : ∀ j (hj : j < (getlines content).length), k < j →
          namesType T (getlines content)[j] (T.string_to_smina_type name) = false := by
        intro j hj hkj
        have := honce k hk j hj (by omega) _ ht
        simpa [hnames] using this
      rw [(hv _ ht).2 k hk hnames hlater, lineCounter_eq_length]
      simp [Nat.min_eq_left (Nat.le_of_lt hk)]
    · intro t ht hnone
      exact (hv t ht).1 hnone

/-- C2, the spec's example: lines `C N` then `O` give count 2, carbon and nitrogen on
channel 0, oxygen on channel 1, hydrogen ignored. -/
theorem createAtomTypeMap_file_disjoint_witness :
    ∃ m, createAtomTypeMap sampleTypes (oneFile "types.map" "C N\nO\n") "types.map"
        = .ok (m, 2) ∧
      m[1]? = some 0 ∧ m[2]? = some 0 ∧ m[3]? = some 1 ∧ m[0]? = some (-1) := by
  obtain ⟨m, h1, h2, h3⟩ := createAtomTypeMap_file_disjoint sampleTypes
    (oneFile "types.map" "C N\nO\n") "types.map" "C N\nO\n" (by decide) rfl (by decide)
    (by decide) (by decide)
  exact ⟨m, h1, h2 0 (by decide) "C" (by decide), h2 0 (by decide) "N" (by decide),
    h2 1 (by decide) "O" (by decide), h3 0 (by decide) (by decide)⟩

/-- C3: at the mapping file `C`, empty line, `O` the code counts the empty line: oxygen
lands on channel 2 and the returned count is 3, where the file has 2 non-empty lines. -/
theorem createAtomTypeMap_counts_empty_line :
    createAtomTypeMap sampleTypes (oneFile "types.map" "C\n\nO\n") "types.map"
        = .ok ([-1, 0, -1, 2], 3) ∧
      getlines "C\n\nO\n" = ["C", "", "O"] ∧
      split "" (is_any_of "\t \n") = [""] :=
  ⟨rfl, rfl, rfl⟩

/-- C4, as stated, fails: the mapping file `C`, `C` is accepted with count 2, and no raw
type has channel 0. -/
theorem createAtomTypeMap_sparse :
    createAtomTypeMap sampleTypes (oneFile "types.map" "C\nC\n") "types.map"
        = .ok ([-1, 1, -1, -1], 2) ∧
      ∀ t : Nat, ([-1, 1, -1, -1] : List Int)[t]? ≠ some 0 := by
  refine ⟨rfl, ?_⟩
  intro t
  match t with
  | 0 => decide
  | 1 => decide
  | 2 => decide
  | 3 => decide
  | n + 4 => simp

/-- C4, amended: whenever `createAtomTypeMap` returns, the map has `NumTypes` entries and
every entry is -1 or lies in `0..count-1`; every channel index in `0..count-1` is the entry
of some raw type when the default mapping is used or when every line of the mapping file
names a type that no later line names. -/
theorem createAtomTypeMap_range (T : AtomTypes) (files : String → Option String)
    (fname : String) (m : List Int) (c : Int)
    (hres : createAtomTypeMap T files fname = .ok (m, c)) :
    m.length = T.NumTypes ∧
    (∀ t, t < T.NumTypes → ∃ v, m[t]? = some v ∧ (v = -1 ∨ (0 ≤ v ∧ v < c))) ∧
    ((fname.length = 0 ∨ ∀ content, files fname = some content →
        ∀ k (hk : k < (getlines content).length), ∃ t, t < T.NumTypes ∧
          namesType T (getlines content)[k] t = true ∧
          ∀ j (hj : j < (getlines content).length), k < j →
            namesType T (getlines content)[j] t = false) →
      ∀ k : Int, 0 ≤ k → k < c → ∃ t, t < T.NumTypes ∧ m[t]? = some k) := by
  refine ⟨createAtomTypeMap_length T files fname m c hres, ?_⟩
  by_cases hname : fname.length = 0
  · have hdef : defaultLoop T (List.range T.NumTypes) (List.replicate T.NumTypes (-1)) 0
        = (m, c) := by
      unfold createAtomTypeMap at hres
      simpa [hname] using hres
    obtain ⟨h1, _, h3⟩ := defaultLoop_range T
    rw [hdef] at h1 h3
    simp only at h1 h3
    constructor
    · intro t ht
      rw [h3 t ht]
      by_cases hh : T.is_hydrogen t = true
      · exact ⟨-1, by simp [hh], Or.inl rfl⟩
      · have hh' : T.is_hydrogen t = false := by simpa using hh
        refine ⟨(heavyBelow T t : Int), by simp [hh'], Or.inr ⟨by omega, ?_⟩⟩
        have := heavyBelow_lt T t T.NumTypes ht hh'
        omega
    · intro _ k hk0 hkc
      obtain ⟨i, hi, hh, hk⟩ := heavyBelow_surj T T.NumTypes k.toNat (by omega)
      refine ⟨i, hi, ?_⟩
      rw [h3 i hi, hk]
      simp only [hh, Bool.false_eq_true, if_false, Option.some.injEq]
      omega
  · cases hfile : files fname with
    | none =>
      unfold createAtomTypeMap at hres
      simp [hname, hfile] at hres
    | some content =>
      obtain ⟨hc, hv⟩ :=
        createAtomTypeMap_file_spec T files fname content m c hname hfile hres
      rw [lineCounter_eq_length] at hc
      constructor
      · intro t ht
        by_cases hnamed : ∃ l ∈ getlines content, namesType T l t = true
        · obtain ⟨k, hk, hk1, hlater⟩ :=
            exists_last_line (getlines content) (fun l => namesType T l t) hnamed
          refine ⟨_, (hv t ht).2 k hk hk1 hlater, Or.inr ?_⟩
          rw [lineCounter_eq_length, hc]
          simp only [List.length_take]
          omega
        · refine ⟨-1, (hv t ht).1 ?_, Or.inl rfl⟩
          intro l hl
          have : ¬ namesType T l t = true := fun hc1 => hnamed ⟨l, hl, hc1⟩
          simpa using this
      · intro hdense k hk0 hkc
        rcases hdense with h0 | hlines
        · exact absurd h0 hname
        · have hk : k.toNat < (getlines content).length := by omega
          obtain ⟨t, ht, hk1, hlater⟩ := hlines content rfl k.toNat hk
          refine ⟨t, ht, ?_⟩
          rw [(hv t ht).2 k.toNat hk hk1 hlater, lineCounter_eq_length]
          simp only [List.length_take, Option.some.injEq]
          omega

/-- C4, amended, at the spec's example file: four entries, each -1 or below the count 2,
and both channels in use. -/
theorem createAtomTypeMap_range_witness :
    ([-1, 0, 0, 1] : List Int).length = sampleTypes.NumTypes ∧
    (∀ t, t < sampleTypes.NumTypes →
      ∃ v, ([-1, 0, 0, 1] : List Int)[t]? = some v ∧ (v = -1 ∨ (0 ≤ v ∧ v < 2))) ∧
    ∀ k : Int, 0 ≤ k → k < 2 → ∃ t, t < sampleTypes.NumTypes ∧
      ([-1, 0, 0, 1] : List Int)[t]? = some k := by
  obtain ⟨h1, h2, h3⟩ := createAtomTypeMap_range sampleTypes
    (oneFile "types.map" "C N\nO\n") "types.map" [-1, 0, 0, 1] 2 rfl
  refine ⟨h1, h2, h3 (Or.inr ?_)⟩
  intro content hc
  have hcontent : content = "C N\nO\n" := by
    have : some "C N\nO\n" = some content := hc
    exact (Option.some.inj this).symm
  subst hcontent
  decide

/-- C5: with a non-empty file name the call ends the process exactly when the file cannot
be opened or a non-empty token (a piece of a line cut at tabs and spaces) is not a known
name; the exit code is then -1; otherwise a map and a count are returned. -/
theorem createAtomTypeMap_fatal_iff (T : AtomTypes) (files : String → Option String)
    (fname : String) (hname : fname.length ≠ 0) :
    ((∃ c, createAtomTypeMap T files fname = .error c) ↔
      (files fname = none ∨ ∃ content, files fname = some content ∧
        ∃ line ∈ getlines content, ∃ name ∈ split line (is_any_of "\t "),
          name.length > 0 ∧ ¬ T.string_to_smina_type name < T.NumTypes)) ∧
    (∀ c, createAtomTypeMap T files fname = .error c → c = -1) ∧
    ((∀ c, createAtomTypeMap T files fname ≠ .error c) →
      ∃ m n, createAtomTypeMap T files fname = .ok (m, n)) := by
  refine ⟨?_, fun c h => createAtomTypeMap_error_code T files fname c h, ?_⟩
  · rw [createAtomTypeMap_error_iff T files fname hname]
    constructor
    · rintro (h | ⟨content, hc, line, hl, name, hn, hx⟩)
      · exact Or.inl h
      · rw [split_getlines content line hl] at hn
        exact Or.inr ⟨content, hc, line, hl, name, hn, hx⟩
    · rintro (h | ⟨content, hc, line, hl, name, hn, hx⟩)
      · exact Or.inl h
      · rw [← split_getlines content line hl] at hn
        exact Or.inr ⟨content, hc, line, hl, name, hn, hx⟩
  · intro hno
    cases hres : createAtomTypeMap T files fname with
    | error c => exact absurd hres (hno c)
    | ok r => exact ⟨r.1, r.2, rfl⟩

/-- C5 at a file with doubled, leading and trailing blanks: it is accepted. -/
theorem createAtomTypeMap_fatal_iff_witness :
    ¬ (∃ c, createAtomTypeMap sampleTypes (oneFile "types.map" " C  N \n\tO\n") "types.map"
        = .error c) ∧
    createAtomTypeMap sampleTypes (oneFile "types.map" " C  N \n\tO\n") "types.map"
        = .ok ([-1, 0, 0, 1], 2) := by
  refine ⟨?_, rfl⟩
  rw [(createAtomTypeMap_fatal_iff sampleTypes (oneFile "types.map" " C  N \n\tO\n")
    "types.map" (by decide)).1]
  rintro (h | ⟨content, hc, hbad⟩)
  · cases h
  · have hcontent : content = " C  N \n\tO\n" := by
      have : some " C  N \n\tO\n" = some content := hc
      exact (Option.some.inj this).symm
    subst hcontent
    revert hbad
    decide

/-- C10: for an accepted mapping file and a raw type `t`, the entry of `t` is -1 exactly
when no token of the file names `t`; otherwise it is the value the line counter had when
the last line naming `t` was read. -/
theorem createAtomTypeMap_reference (T : AtomTypes) (files : String → Option String)
    (fname content : String) (m : List Int) (c : Int) (hname : fname.length ≠ 0)
    (hfile : files fname = some content)
    (hres : createAtomTypeMap T files fname = .ok (m, c)) (t : Nat) (ht : t < T.NumTypes) :
    (m[t]? = some (-1) ↔ ∀ line ∈ getlines content, namesType T line t = false) ∧
    (∀ k (hk : k < (getlines content).length), namesType T (getlines content)[k] t = true →
      (∀ j (hj : j < (getlines content).length), k < j →
        namesType T (getlines content)[j] t = false) →
      m[t]? = some (lineCounter ((getlines content).take k))) := by
  obtain ⟨_, hv⟩ := createAtomTypeMap_file_spec T files fname content m c hname hfile hres
  refine ⟨⟨?_, (hv t ht).1⟩, (hv t ht).2⟩
  intro hminus line hline
  by_contra hnamed
  have hnamed' : namesType T line t = true := by simpa using hnamed
  obtain ⟨k, hk, hk1, hlater⟩ :=
    exists_last_line (getlines content) (fun l => namesType T l t) ⟨line, hline, hnamed'⟩
  have := (hv t ht).2 k hk hk1 hlater
  rw [hminus, lineCounter_eq_length] at this
  simp only [Option.some.injEq] at this
  omega

/-- C10 at the file `C N`, `O N`, `N N`: nitrogen, named on all three lines and twice on
the last, ends on the counter value of the last line. -/
theorem createAtomTypeMap_reference_witness :
    (([-1, 0, 2, 1] : List Int)[2]? = some (-1) ↔
      ∀ line ∈ getlines "C N\nO N\nN N\n", namesType sampleTypes line 2 = false) ∧
    ([-1, 0, 2, 1] : List Int)[2]? = some 2 := by
  obtain ⟨h1, h2⟩ := createAtomTypeMap_reference sampleTypes
    (oneFile "types.map" "C N\nO N\nN N\n") "types.map" "C N\nO N\nN N\n" [-1, 0, 2, 1] 3
    (by decide) rfl rfl 2 (by decide)
  exact ⟨h1, h2 2 (by decide) (by decide) (by decide)⟩

/-! ## The driver -/

theorem digitChar_inj : ∀ a, a < 10 → ∀ b, b < 10 →
    Nat.digitChar a = Nat.digitChar b → a = b := by
  decide

theorem decimalDigits_ne_nil (fuel n : Nat) (h : 0 < fuel) : decimalDigits fuel n ≠ [] := by
  cases fuel with
  | zero => omega
  | succ f =>
    unfold decimalDigits
    split <;> simp

theorem decimalDigits_inj (fuel1 : Nat) :
    ∀ (fuel2 n m : Nat), n < fuel1 → m < fuel2 →
      decimalDigits fuel1 n = decimalDigits fuel2 m → n = m := by
  induction fuel1 with
  | zero => intro fuel2 n m hn; omega
  | succ f1 ih =>
    intro fuel2 n m hn hm heq
    cases fuel2 with
    | zero => omega
    | succ f2 =>
      unfold decimalDigits at heq
      by_cases h1 : n < 10
      · by_cases h2 : m < 10
        · rw [if_pos h1, if_pos h2] at heq
          exact digitChar_inj n h1 m h2 (by simpa using heq)
        · rw [if_pos h1, if_neg h2] at heq
          have hne := decimalDigits_ne_nil f2 (m / 10) (by omega)
          have hlen := congrArg List.length heq
          simp only [List.length_singleton, List.length_append] at hlen
          have : 0 < (decimalDigits f2 (m / 10)).length := List.length_pos.mpr hne
          omega
      · by_cases h2 : m < 10
        · rw [if_neg h1, if_pos h2] at heq
          have hne := decimalDigits_ne_nil f1 (n / 10) (by omega)
          have hlen := congrArg List.length heq
          simp only [List.length_singleton, List.length_append] at hlen
          have : 0 < (decimalDigits f1 (n / 10)).length := List.length_pos.mpr hne
          omega
        · rw [if_neg h1, if_neg h2] at heq
          obtain ⟨hfront, hlast⟩ := List.append_inj' heq rfl
          have hdiv := ih f2 (n / 10) (m / 10) (by omega) (by omega) hfront
          have hmod := digitChar_inj (n % 10) (by omega) (m % 10) (by omega)
            (by simpa using hlast)
          omega

theorem lexical_cast_inj (n m : Nat) (h : lexical_cast n = lexical_cast m) : n = m := by
  unfold lexical_cast at h
  exact decimalDigits_inj (n + 1) (m + 1) n m (by omega) (by omega)
    (congrArg String.data h)

theorem binmapName_inj (opt : cmdoptions) (g : NNGridder) (i j : Nat) (hi : i < 2 ^ 32)
    (hj : j < 2 ^ 32) (h : binmapName opt g i = binmapName opt g j) : i = j := by
  unfold binmapName at h
  rw [Nat.mod_eq_of_lt hi, Nat.mod_eq_of_lt hj] at h
  have hd := congrArg String.data h
  simp only [String.data_append, List.append_assoc, List.append_cancel_left_eq] at hd
  have hd2 := List.append_cancel_right hd
  exact lexical_cast_inj i j (String.ext hd2)

theorem poseLoop_binmap (opt : cmdoptions) (g : NNGridder) (parmstr : String)
    (hmode : opt.outmap = false) :
    ∀ (mols : List (Except file_error Unit)) (k : Nat), k < 2 ^ 32 →
      ∃ n, n ≤ mols.length ∧
        ((poseLoop opt g parmstr mols k).2 = .ok () → n = mols.length) ∧
        (poseLoop opt g parmstr mols k).1 = (List.range n).map (fun i =>
          Event.lmdb
            ((if opt.ligoutname.length = 0
                then opt.outname ++ "_" ++ lexical_cast ((k + i) % 2 ^ 32)
                else opt.ligoutname ++ "_" ++ lexical_cast ((k + i) % 2 ^ 32))
              ++ parmstr ++ ".binmap")
            (opt.ligoutname.length == 0) true) := by
  intro mols
  induction mols with
  | nil => intro k _; exact ⟨0, by simp, by simp, by simp [poseLoop]⟩
  | cons mol rest ih =>
    intro k hk
    cases mol with
    | error e => exact ⟨0, by simp, by simp [poseLoop], by simp [poseLoop]⟩
    | ok u =>
      cases u
      unfold poseLoop
      simp only [hmode, Bool.false_eq_true, if_false, outputLMDB_outputlig_default]
      split
      · have hk1 : k % 2 ^ 32 = k := Nat.mod_eq_of_lt hk
        refine ⟨1, by simp, by simp, ?_⟩
        have hr : List.range 1 = [0] := rfl
        simp only [hr, List.map_cons, List.map_nil, Nat.add_zero, hk1]
      · obtain ⟨n, hn, hfull, htr⟩ := ih ((k + 1) % 2 ^ 32) (Nat.mod_lt _ (by norm_num))
        refine ⟨n + 1, by simpa using hn, ?_, ?_⟩
        · intro hok
          simp only at hok
          rw [hfull hok, List.length_cons]
        · simp only
          rw [htr, List.range_succ_eq_map, List.map_cons, List.map_map]
          simp only [Nat.add_zero, Nat.mod_eq_of_lt hk, List.cons.injEq, true_and]
          apply List.map_congr_left
          intro i _
          have hmod : ((k + 1) % 2 ^ 32 + i) % 2 ^ 32 = (k + (i + 1)) % 2 ^ 32 := by omega
          simp only [Function.comp, hmod, Nat.succ_eq_add_one]

/-- C6, as stated, fails. With ligand base name `lig` the calls are the receptor-only file
`out.P.binmap` and the pose file `lig_0.P.binmap`. If `paramstr` is the gridder's string
`P`, the pose file is not `base_0` followed by `paramstr` and `.binmap`; if `paramstr`
carries the dot, the receptor-only file is not `base.` followed by `paramstr` and
`.binmap`, for either base name. -/
theorem writeGrids_name_has_dot :
    (writeGrids { sampleOptions with ligoutname := "lig" } (sampleGridder 1)).1 =
      [Event.lmdb "out.24_0.5_rec.binmap" true false,
       Event.lmdb "lig_0.24_0.5_lig.binmap" false true] ∧
    (∀ r l : Bool, "lig_0.24_0.5_lig.binmap" ≠
      "lig" ++ "_" ++ lexical_cast 0 ++ (sampleGridder 1).getParamString r l ++ ".binmap") ∧
    (∀ r l : Bool, ∀ base ∈ ["out", "lig"], "out.24_0.5_rec.binmap" ≠
      base ++ "." ++ ("." ++ (sampleGridder 1).getParamString r l) ++ ".binmap") := by
  decide

/-- C6, amended: in binary-map mode, with a ligand base name that is empty or longer than
one character, the calls to `outputLMDB` are, in order, the receptor-only file
`outname.P(rec).binmap` (only when a ligand base name is given) and then, for the poses
`k = 0, 1, ...` read so far, the file `base_k.P.binmap`, where `base` is the output base
name (the ligand base name when given), `k` is written in decimal (the counter wraps at
`2^32`) and `P` is the gridder's parameter string; every molecule gets its file when no
file error occurs, and the names of poses below `2^32` are pairwise distinct. -/
theorem writeGrids_binmap_names (opt : cmdoptions) (g : NNGridder)
    (hmode : opt.outmap = false) (hlig : opt.ligoutname.length ≠ 1) :
    (∃ n, n ≤ g.molecules.length ∧
      ((writeGrids opt g).2 = .ok () → n = g.molecules.length) ∧
      (writeGrids opt g).1 =
        (if opt.ligoutname.length = 0 then []
          else [Event.lmdb (opt.outname ++ "." ++ g.getParamString true false ++ ".binmap")
            true false]) ++
        (List.range n).map (fun k =>
          Event.lmdb (binmapName opt g k) (opt.ligoutname.length == 0) true)) ∧
    ∀ i j, i < 2 ^ 32 → j < 2 ^ 32 → i ≠ j → binmapName opt g i ≠ binmapName opt g j := by
  refine ⟨?_, fun i j hi hj hne heq => hne (binmapName_inj opt g i j hi hj heq)⟩
  unfold writeGrids
  simp only [hmode, Bool.not_false, if_true]
  by_cases h1 : opt.ligoutname.length > 1
  · have h0 : ¬ opt.ligoutname.length = 0 := by omega
    simp only [h1, if_true, h0, if_false]
    split
    · exact ⟨0, by simp, by simp, by simp⟩
    · obtain ⟨n, hn, hfull, htr⟩ := poseLoop_binmap opt g ("." ++ g.getParamString false true)
        hmode g.molecules 0 (by norm_num)
      refine ⟨n, hn, hfull, ?_⟩
      simp only
      rw [htr]
      simp only [h0, if_false, List.singleton_append, List.cons.injEq, true_and]
      apply List.map_congr_left
      intro k _
      simp [binmapName, h0, String.append_assoc]
  · have h0 : opt.ligoutname.length = 0 := by omega
    simp only [h1, if_false]
    obtain ⟨n, hn, hfull, htr⟩ := poseLoop_binmap opt g ("." ++ g.getParamString true true)
      hmode g.molecules 0 (by norm_num)
    refine ⟨n, hn, hfull, ?_⟩
    rw [htr]
    simp only [h0, if_true, List.nil_append]
    apply List.map_congr_left
    intro k _
    simp [binmapName, h0, String.append_assoc]

/-- C6, amended, at a run with ligand base name `lig` and two poses. -/
theorem writeGrids_binmap_names_witness :
    (∃ n, n ≤ 2 ∧
      ((writeGrids { sampleOptions with ligoutname := "lig" } (sampleGridder 2)).2 = .ok ()
        → n = 2) ∧
      (writeGrids { sampleOptions with ligoutname := "lig" } (sampleGridder 2)).1 =
        [Event.lmdb "out.24_0.5_rec.binmap" true false] ++
        (List.range n).map (fun k =>
          Event.lmdb (binmapName { sampleOptions with ligoutname := "lig" } (sampleGridder 2) k)
            false true)) ∧
    binmapName { sampleOptions with ligoutname := "lig" } (sampleGridder 2) 0
      = "lig_0.24_0.5_lig.binmap" ∧
    binmapName { sampleOptions with ligoutname := "lig" } (sampleGridder 2) 1
      = "lig_1.24_0.5_lig.binmap" :=
  ⟨(writeGrids_binmap_names { sampleOptions with ligoutname := "lig" } (sampleGridder 2)
    rfl (by decide)).1, by decide, by decide⟩

/-- C7: with the one-character ligand base name `L` no receptor-only file is written and
the file of pose 0 is named with the combined parameter string, yet `outputLMDB` is asked
for ligand channels only. -/
theorem writeGrids_one_char_ligoutname :
    (writeGrids { sampleOptions with ligoutname := "L" } (sampleGridder 1)).1 =
      [Event.lmdb ("L_0." ++ (sampleGridder 1).getParamString true true ++ ".binmap")
        false true] ∧
    (sampleGridder 1).getParamString true true ≠ (sampleGridder 1).getParamString false true := by
  decide

theorem poseLoop_isOutput (opt : cmdoptions) (g : NNGridder) (parmstr : String) :
    ∀ (mols : List (Except file_error Unit)) (k : Nat),
      ∀ e ∈ (poseLoop opt g parmstr mols k).1, e.isOutput = true := by
  intro mols
  induction mols with
  | nil => intro k e he; simp [poseLoop] at he
  | cons mol rest ih =>
    intro k e he
    cases mol with
    | error err => simp [poseLoop] at he
    | ok u =>
      cases u
      unfold poseLoop at he
      simp only at he
      split at he
      · split at he
        · simp only [List.mem_singleton] at he
          subst he; rfl
        · simp only [List.mem_cons] at he
          rcases he with rfl | he
          · rfl
          · exact ih _ e he
      · split at he
        · simp only [List.mem_singleton] at he
          subst he; rfl
        · simp only [List.mem_cons] at he
          rcases he with rfl | he
          · rfl
          · exact ih _ e he

theorem writeGrids_isOutput (opt : cmdoptions) (g : NNGridder) :
    ∀ e ∈ (writeGrids opt g).1, e.isOutput = true := by
  intro e he
  unfold writeGrids at he
  split at he
  · split at he
    · simp only at he
      split at he
      · simp only [List.mem_singleton] at he
        subst he; rfl
      · simp only [List.mem_cons] at he
        rcases he with rfl | he
        · rfl
        · exact poseLoop_isOutput opt g _ _ _ e he
    · exact poseLoop_isOutput opt g _ _ _ e he
  · exact poseLoop_isOutput opt g _ _ _ e he

theorem isfinite_add (a b : Dbl) (h : isfinite (Dbl.add a b) = true) :
    isfinite a = true ∧ isfinite b = true := by
  cases a with
  | nan => simp [Dbl.add, isfinite] at h
  | inf na =>
    cases b with
    | nan => simp [Dbl.add, isfinite] at h
    | inf nb => by_cases hab : na = nb <;> simp [Dbl.add, isfinite, hab] at h
    | fin n => simp [Dbl.add, isfinite] at h
  | fin n =>
    cases b with
    | nan => simp [Dbl.add, isfinite] at h
    | inf nb => simp [Dbl.add, isfinite] at h
    | fin k => exact ⟨rfl, rfl⟩

theorem resolveCenter_finite (W : World) (o : cmdoptions)
    (h : isfinite (Dbl.add (Dbl.add o.x o.y) o.z) = true) :
    resolveCenter W o = ([], .ok o) := by
  simp [resolveCenter, h]

theorem resolveCenter_auto (W : World) (o : cmdoptions)
    (h : isfinite (Dbl.add (Dbl.add o.x o.y) o.z) = false) :
    (resolveCenter W o).1 = [Event.autobox (autocenterFile o)] ∧
    ∀ opt, (resolveCenter W o).2 = .ok opt →
      ∃ c, W.setup_autobox (autocenterFile o) = .ok c ∧
        opt = { o with x := c.1, y := c.2.1, z := c.2.2 } := by
  unfold resolveCenter autocenterFile
  simp only [h, Bool.not_false, if_true]
  split
  · exact ⟨rfl, fun opt hopt => by cases hopt⟩
  · rename_i cx cy cz hc
    refine ⟨rfl, ?_⟩
    intro opt hopt
    simp only [Except.ok.injEq] at hopt
    exact ⟨(cx, cy, cz), hc, hopt.symm⟩

theorem resolveCenter_maps (W : World) (o opt : cmdoptions)
    (hc : (resolveCenter W o).2 = .ok opt) :
    opt.recmap = o.recmap ∧ opt.ligmap = o.ligmap := by
  cases h : isfinite (Dbl.add (Dbl.add o.x o.y) o.z) with
  | true =>
    rw [resolveCenter_finite W o h] at hc
    simp only [Except.ok.injEq] at hc
    rw [← hc]
    exact ⟨rfl, rfl⟩
  | false =>
    obtain ⟨c, _, hc1⟩ := (resolveCenter_auto W o h).2 opt hc
    rw [hc1]
    exact ⟨rfl, rfl⟩

theorem main_trace_shape (W : World) (o : cmdoptions) (hhelp : o.help = false)
    (hver : o.version = false) :
    ∃ tr, (main W (some o)).trace = (resolveCenter W o).1 ++ tr ∧
      ∀ e ∈ tr, e.isOutput = true ∨
        ∃ opt rm lm, e = Event.gridder opt rm lm ∧ (resolveCenter W o).2 = .ok opt := by
  unfold main parse_options
  simp only [hhelp, hver, Bool.false_eq_true, if_false]
  rcases hrc : resolveCenter W o with ⟨tr1, r1⟩
  cases r1 with
  | error e => exact ⟨[], by simp, by simp⟩
  | ok opt =>
    simp only
    cases createAtomTypeMap W.types W.files opt.recmap with
    | error c => exact ⟨[], by simp, by simp⟩
    | ok r =>
      obtain ⟨rm, nr⟩ := r
      simp only
      cases createAtomTypeMap W.types W.files opt.ligmap with
      | error c => exact ⟨[], by simp, by simp⟩
      | ok r =>
        obtain ⟨lm, nl⟩ := r
        simp only
        cases W.newGridder opt rm lm with
        | error e =>
          refine ⟨[Event.gridder opt rm lm], rfl, ?_⟩
          intro e he
          simp only [List.mem_singleton] at he
          exact Or.inr ⟨opt, rm, lm, he, rfl⟩
        | ok g =>
          simp only
          have hout := writeGrids_isOutput opt g
          rcases hw : writeGrids opt g with ⟨tr2, r2⟩
          rw [hw] at hout
          have hmem : ∀ e ∈ Event.gridder opt rm lm :: tr2, e.isOutput = true ∨
              ∃ opt1 rm1 lm1, e = Event.gridder opt1 rm1 lm1 ∧
                (Except.ok opt : Except file_error cmdoptions) = .ok opt1 := by
            intro e he
            rcases List.mem_cons.mp he with rfl | he
            · exact Or.inr ⟨opt, rm, lm, rfl, rfl⟩
            · exact Or.inl (hout e he)
          cases r2 with
          | error e => exact ⟨_, rfl, hmem⟩
          | ok u => cases u; exact ⟨_, rfl, hmem⟩

theorem main_reaches_gridder (W : World) (o opt : cmdoptions) (rm lm : List Int)
    (nr nl : Int) (hhelp : o.help = false) (hver : o.version = false)
    (hc : (resolveCenter W o).2 = .ok opt)
    (hr : createAtomTypeMap W.types W.files opt.recmap = .ok (rm, nr))
    (hl : createAtomTypeMap W.types W.files opt.ligmap = .ok (lm, nl)) :
    Event.gridder opt rm lm ∈ (main W (some o)).trace := by
  unfold main parse_options
  simp only [hhelp, hver, Bool.false_eq_true, if_false]
  rcases hrc : resolveCenter W o with ⟨tr1, r1⟩
  rw [hrc] at hc
  simp only at hc
  subst hc
  simp only [hr, hl]
  cases W.newGridder opt rm lm with
  | error e => simp
  | ok g =>
    simp only
    rcases hw : writeGrids opt g with ⟨tr2, r2⟩
    cases r2 with
    | error e => simp
    | ok u => cases u; simp

/-- C9, as stated, fails: with `x = y = DBL_MAX` and `z = 0`, three finite coordinates,
the sum overflows, the helper is called on the ligand file and the gridder receives the
helper's centre. -/
theorem main_overflow_calls_autobox :
    isfinite DBL_MAX = true ∧ isfinite (Dbl.fin 0) = true ∧
    Dbl.ofExact (Int.ofNat ((2 ^ 53 - 1) * 2 ^ 2045)) = DBL_MAX ∧
    Dbl.add (Dbl.add DBL_MAX DBL_MAX) (Dbl.fin 0) = Dbl.inf false ∧
    (main sampleWorld (some { sampleOptions with x := DBL_MAX, y := DBL_MAX })).trace.take 2 =
      [Event.autobox "lig.sdf", Event.gridder sampleOptions [-1, 0, 1, 2] [-1, 0, 1, 2]] := by
  decide

/-- C9, amended: when the double-precision sum `x + y + z` is finite (which needs `x`, `y`
and `z` finite) the helper is not called and the gridder receives the options unchanged;
otherwise the helper is called first, on the autocenter file when one is named and on the
ligand file when none is, and the gridder receives the options with only the centre
replaced by the helper's answer. Dimension and resolution reach the gridder unchanged,
and the gridder is constructed whenever the centre and both mappings are obtained. -/
theorem main_center (W : World) (o : cmdoptions) (hhelp : o.help = false)
    (hver : o.version = false) :
    (isfinite (Dbl.add (Dbl.add o.x o.y) o.z) = true →
      (isfinite o.x = true ∧ isfinite o.y = true ∧ isfinite o.z = true) ∧
      (∀ f, Event.autobox f ∉ (main W (some o)).trace) ∧
      (∀ o1 rm lm, Event.gridder o1 rm lm ∈ (main W (some o)).trace → o1 = o)) ∧
    (isfinite (Dbl.add (Dbl.add o.x o.y) o.z) = false →
      (main W (some o)).trace.head? = some (Event.autobox (autocenterFile o)) ∧
      (∀ f, Event.autobox f ∈ (main W (some o)).trace → f = autocenterFile o) ∧
      (∀ o1 rm lm, Event.gridder o1 rm lm ∈ (main W (some o)).trace →
        ∃ c, W.setup_autobox (autocenterFile o) = .ok c ∧
          o1 = { o with x := c.1, y := c.2.1, z := c.2.2 })) ∧
    (∀ o1 rm lm, Event.gridder o1 rm lm ∈ (main W (some o)).trace →
      o1.dim = o.dim ∧ o1.res = o.res) ∧
    (∀ opt rm nr lm nl, (resolveCenter W o).2 = .ok opt →
      createAtomTypeMap W.types W.files o.recmap = .ok (rm, nr) →
      createAtomTypeMap W.types W.files o.ligmap = .ok (lm, nl) →
      Event.gridder opt rm lm ∈ (main W (some o)).trace) := by
  obtain ⟨tr, htr, hev⟩ := main_trace_shape W o hhelp hver
  have hfin : isfinite (Dbl.add (Dbl.add o.x o.y) o.z) = true →
      (∀ f, Event.autobox f ∉ (main W (some o)).trace) ∧
      (∀ o1 rm lm, Event.gridder o1 rm lm ∈ (main W (some o)).trace → o1 = o) := by
    intro h
    rw [htr, resolveCenter_finite W o h]
    rw [resolveCenter_finite W o h] at hev
    simp only [List.nil_append]
    constructor
    · intro f hf
      rcases hev _ hf with h1 | ⟨opt, rm, lm, h1, _⟩
      · simp [Event.isOutput] at h1
      · cases h1
    · intro o1 rm lm hg
      rcases hev _ hg with h1 | ⟨opt, rm1, lm1, h1, h2⟩
      · simp [Event.isOutput] at h1
      · cases h1
        simp only [Except.ok.injEq] at h2
        exact h2.symm
  have hauto : isfinite (Dbl.add (Dbl.add o.x o.y) o.z) = false →
      (main W (some o)).trace.head? = some (Event.autobox (autocenterFile o)) ∧
      (∀ f, Event.autobox f ∈ (main W (some o)).trace → f = autocenterFile o) ∧
      (∀ o1 rm lm, Event.gridder o1 rm lm ∈ (main W (some o)).trace →
        ∃ c, W.setup_autobox (autocenterFile o) = .ok c ∧
          o1 = { o with x := c.1, y := c.2.1, z := c.2.2 }) := by
    intro h
    obtain ⟨h1, h2⟩ := resolveCenter_auto W o h
    rw [htr, h1]
    refine ⟨rfl, ?_, ?_⟩
    · intro f hf
      simp only [List.singleton_append, List.mem_cons, Event.autobox.injEq] at hf
      rcases hf with hf | hf
      · exact hf
      · rcases hev _ hf with h3 | ⟨opt, rm, lm, h3, _⟩
        · simp [Event.isOutput] at h3
        · cases h3
    · intro o1 rm lm hg
      simp only [List.singleton_append, List.mem_cons, reduceCtorEq, false_or] at hg
      rcases hev _ hg with h3 | ⟨opt, rm1, lm1, h3, h4⟩
      · simp [Event.isOutput] at h3
      · cases h3
        exact h2 o1 h4
  refine ⟨?_, hauto, ?_, ?_⟩
  · intro h
    obtain ⟨hxy, hz⟩ := isfinite_add _ _ h
    obtain ⟨hx, hy⟩ := isfinite_add _ _ hxy
    exact ⟨⟨hx, hy, hz⟩, hfin h⟩
  · intro o1 rm lm hg
    cases h : isfinite (Dbl.add (Dbl.add o.x o.y) o.z) with
    | true =>
      rw [(hfin h).2 o1 rm lm hg]
      exact ⟨rfl, rfl⟩
    | false =>
      obtain ⟨c, _, hc⟩ := (hauto h).2.2 o1 rm lm hg
      rw [hc]
      exact ⟨rfl, rfl⟩
  · intro opt rm nr lm nl hc hr hl
    have hsame := resolveCenter_maps W o opt hc
    exact main_reaches_gridder W o opt rm lm nr nl hhelp hver hc
      (by rw [hsame.1]; exact hr) (by rw [hsame.2]; exact hl)

/-- C9, amended, at options that name an autocenter file and leave `x` not a number. -/
theorem main_center_witness :
    (main sampleWorld (some { sampleOptions with x := Dbl.nan, centerfile := "ref.sdf" })).trace.head?
      = some (Event.autobox "ref.sdf") ∧
    Event.gridder sampleOptions [-1, 0, 1, 2] [-1, 0, 1, 2] ∈
      (main sampleWorld (some sampleOptions)).trace ∧
    ∀ f, Event.autobox f ∉ (main sampleWorld (some sampleOptions)).trace :=
  ⟨((main_center sampleWorld { sampleOptions with x := Dbl.nan, centerfile := "ref.sdf" }
      rfl rfl).2.1 rfl).1,
   (main_center sampleWorld sampleOptions rfl rfl).2.2.2 sampleOptions [-1, 0, 1, 2] 3
      [-1, 0, 1, 2] 3 rfl rfl rfl,
   ((main_center sampleWorld sampleOptions rfl rfl).1 rfl).2.1⟩

theorem mappingFatal_iff (T : AtomTypes) (files : String → Option String) (fname : String) :
    mappingFatal T files fname ↔ ∃ c, createAtomTypeMap T files fname = .error c := by
  unfold mappingFatal
  by_cases hname : fname.length = 0
  · simp [createAtomTypeMap, hname]
  · rw [createAtomTypeMap_error_iff T files fname hname]
    simp only [ne_eq, hname, not_false_eq_true, true_and]
    constructor
    · rintro (h | ⟨content, hc, line, hl, name, hn, hx⟩)
      · exact Or.inl h
      · rw [← split_getlines content line hl] at hn
        exact Or.inr ⟨content, hc, line, hl, name, hn, hx⟩
    · rintro (h | ⟨content, hc, line, hl, name, hn, hx⟩)
      · exact Or.inl h
      · rw [split_getlines content line hl] at hn
        exact Or.inr ⟨content, hc, line, hl, name, hn, hx⟩

theorem resolveCenter_error (W : World) (o : cmdoptions)
    (h : isfinite (Dbl.add (Dbl.add o.x o.y) o.z) = false) (e : file_error)
    (he : W.setup_autobox (autocenterFile o) = .error e) :
    (resolveCenter W o).2 = .error e := by
  unfold resolveCenter
  unfold autocenterFile at he
  simp only [h, Bool.not_false, if_true]
  rw [he]

theorem main_status_eq (W : World) (o : cmdoptions) (hhelp : o.help = false)
    (hver : o.version = false) :
    (main W (some o)).status =
      match (resolveCenter W o).2 with
      | .error _ => -1
      | .ok opt =>
        match createAtomTypeMap W.types W.files opt.recmap with
        | .error c => c
        | .ok (rm, _) =>
          match createAtomTypeMap W.types W.files opt.ligmap with
          | .error c => c
          | .ok (lm, _) =>
            match W.newGridder opt rm lm with
            | .error _ => -1
            | .ok g =>
              match (writeGrids opt g).2 with
              | .error _ => -1
              | .ok _ => 0 := by
  unfold main parse_options
  simp only [hhelp, hver, Bool.false_eq_true, if_false]
  rcases resolveCenter W o with ⟨tr1, r1⟩
  cases r1 with
  | error e => rfl
  | ok opt =>
    simp only
    cases createAtomTypeMap W.types W.files opt.recmap with
    | error c => rfl
    | ok r =>
      obtain ⟨rm, nr⟩ := r
      simp only
      cases createAtomTypeMap W.types W.files opt.ligmap with
      | error c => rfl
      | ok r =>
        obtain ⟨lm, nl⟩ := r
        simp only
        cases W.newGridder opt rm lm with
        | error e => rfl
        | ok g =>
          simp only
          rcases writeGrids opt g with ⟨tr2, r2⟩
          cases r2 with
          | error e => rfl
          | ok u => cases u; rfl

theorem resolveCenter_ok (W : World) (o : cmdoptions)
    (h : isfinite (Dbl.add (Dbl.add o.x o.y) o.z) = false) (c : Dbl × Dbl × Dbl)
    (hc : W.setup_autobox (autocenterFile o) = .ok c) :
    (resolveCenter W o).2 = .ok { o with x := c.1, y := c.2.1, z := c.2.2 } := by
  unfold resolveCenter
  unfold autocenterFile at hc
  simp only [h, Bool.not_false, if_true]
  rw [hc]

theorem poseLoop_step (opt : cmdoptions) (g : NNGridder) (parmstr : String)
    (rest : List (Except file_error Unit)) (k : Nat) :
    (poseLoop opt g parmstr (.ok () :: rest) k).2 =
      match poseCall opt g parmstr k with
      | .error e => .error e
      | .ok _ => (poseLoop opt g parmstr rest ((k + 1) % 2 ^ 32)).2 := by
  conv_lhs => unfold poseLoop
  unfold poseCall
  simp only
  by_cases hm : opt.outmap = true
  · simp only [hm, if_true]
    split <;> rename_i heq <;> rw [heq]
  · simp only [hm, Bool.false_eq_true, if_false]
    split <;> rename_i heq <;> rw [heq]

theorem poseLoop_ok_iff (opt : cmdoptions) (g : NNGridder) (parmstr : String) :
    ∀ (mols : List (Except file_error Unit)) (k : Nat), k < 2 ^ 32 →
      ((poseLoop opt g parmstr mols k).2 = .ok () ↔
        (∀ m ∈ mols, m = .ok ()) ∧
        ∀ i, i < mols.length → poseCall opt g parmstr ((k + i) % 2 ^ 32) = .ok ()) := by
  intro mols
  induction mols with
  | nil => intro k _; simp [poseLoop]
  | cons mol rest ih =>
    intro k hk
    have hk1 : k % 2 ^ 32 = k := Nat.mod_eq_of_lt hk
    cases mol with
    | error e =>
      constructor
      · intro h
        simp [poseLoop] at h
      · rintro ⟨h, _⟩
        have := h (.error e) (by simp)
        cases this
    | ok u =>
      cases u
      rw [poseLoop_step]
      cases hp : poseCall opt g parmstr k with
      | error e =>
        constructor
        · intro h
          cases h
        · rintro ⟨_, h⟩
          have h0 := h 0 (by simp)
          rw [Nat.add_zero, hk1, hp] at h0
          cases h0
      | ok v =>
        cases v
        simp only
        rw [ih ((k + 1) % 2 ^ 32) (Nat.mod_lt _ (by norm_num))]
        constructor
        · rintro ⟨h1, h2⟩
          constructor
          · intro m hm
            rcases List.mem_cons.mp hm with rfl | hm
            · rfl
            · exact h1 m hm
          · intro i hi
            cases i with
            | zero => rw [Nat.add_zero, hk1, hp]
            | succ i =>
              have := h2 i (by simpa using hi)
              have hmod : ((k + 1) % 2 ^ 32 + i) % 2 ^ 32 = (k + (i + 1)) % 2 ^ 32 := by
                omega
              rw [hmod] at this
              exact this
        · rintro ⟨h1, h2⟩
          constructor
          · intro m hm
            exact h1 m (List.mem_cons_of_mem _ hm)
          · intro i hi
            have := h2 (i + 1) (by simpa using hi)
            have hmod : ((k + 1) % 2 ^ 32 + i) % 2 ^ 32 = (k + (i + 1)) % 2 ^ 32 := by
              omega
            rw [hmod]
            exact this

theorem writeGrids_ok_iff (opt : cmdoptions) (g : NNGridder) :
    (writeGrids opt g).2 = .ok () ↔
      receptorCall opt g = .ok () ∧ (∀ m ∈ g.molecules, m = .ok ()) ∧
      ∀ k, k < g.molecules.length →
        poseCall opt g (parmstrOf opt g) (k % 2 ^ 32) = .ok () := by
  have hloop := fun parmstr =>
    poseLoop_ok_iff opt g parmstr g.molecules 0 (by norm_num)
  simp only [Nat.zero_add] at hloop
  unfold writeGrids receptorCall parmstrOf
  by_cases hm : opt.outmap = true
  · simp only [hm, Bool.not_true, Bool.false_eq_true, if_false, true_and]
    rw [hloop]
  · simp only [hm, Bool.not_false, if_true]
    by_cases h1 : opt.ligoutname.length > 1
    · simp only [h1, if_true]
      cases hr : g.outputLMDB (opt.outname ++ "." ++ g.getParamString true false ++ ".binmap")
          true false with
      | error e => simp
      | ok u =>
        cases u
        simp only [true_and]
        rw [hloop]
    · simp only [h1, if_false, true_and]
      rw [hloop]

/-- C8: a run exits with 0 or -1. It exits with 0, before any call to a collaborator, when
help or version is requested. It exits with -1 on a command-line parse error, when the
autocenter helper throws a `file_error`, when a mapping file cannot be opened or holds an
invalid type name, when the gridder constructor throws, when `readMolecule` throws for
some molecule, and when the receptor-only call or the output call of some pose throws. It
exits with 0 when the centre is obtained, both mappings are accepted, the gridder is built,
every molecule is read and every output call succeeds. -/
theorem main_exit_status (W : World) (parsed : Option cmdoptions) :
    ((main W parsed).status = 0 ∨ (main W parsed).status = -1) ∧
    (parsed = none → (main W parsed).status = -1) ∧
    (∀ o, parsed = some o → (o.help = true ∨ o.version = true) →
      (main W parsed).status = 0 ∧ (main W parsed).trace = []) ∧
    (∀ o, parsed = some o → o.help = false → o.version = false →
      ((isfinite (Dbl.add (Dbl.add o.x o.y) o.z) = false ∧
          ∃ e, W.setup_autobox (autocenterFile o) = .error e) →
        (main W parsed).status = -1) ∧
      (∀ opt,
        ((isfinite (Dbl.add (Dbl.add o.x o.y) o.z) = true ∧ opt = o) ∨
         (isfinite (Dbl.add (Dbl.add o.x o.y) o.z) = false ∧
          ∃ c, W.setup_autobox (autocenterFile o) = .ok c ∧
            opt = { o with x := c.1, y := c.2.1, z := c.2.2 })) →
        ((mappingFatal W.types W.files o.recmap ∨ mappingFatal W.types W.files o.ligmap) →
          (main W parsed).status = -1) ∧
        (∀ rm nr lm nl, createAtomTypeMap W.types W.files o.recmap = .ok (rm, nr) →
          createAtomTypeMap W.types W.files o.ligmap = .ok (lm, nl) →
          ((∃ e, W.newGridder opt rm lm = .error e) → (main W parsed).status = -1) ∧
          (∀ g, W.newGridder opt rm lm = .ok g →
            ((∃ e, receptorCall opt g = .error e) → (main W parsed).status = -1) ∧
            ((∃ e, Except.error e ∈ g.molecules) → (main W parsed).status = -1) ∧
            ((∃ k e, k < g.molecules.length ∧
                poseCall opt g (parmstrOf opt g) (k % 2 ^ 32) = .error e) →
              (main W parsed).status = -1) ∧
            (receptorCall opt g = .ok () → (∀ m ∈ g.molecules, m = .ok ()) →
              (∀ k, k < g.molecules.length →
                poseCall opt g (parmstrOf opt g) (k % 2 ^ 32) = .ok ()) →
              (main W parsed).status = 0))))) := by
  have hmain : ∀ o, parsed = some o → o.help = false → o.version = false →
      ((isfinite (Dbl.add (Dbl.add o.x o.y) o.z) = false ∧
          ∃ e, W.setup_autobox (autocenterFile o) = .error e) →
        (main W parsed).status = -1) ∧
      (∀ opt,
        ((isfinite (Dbl.add (Dbl.add o.x o.y) o.z) = true ∧ opt = o) ∨
         (isfinite (Dbl.add (Dbl.add o.x o.y) o.z) = false ∧
          ∃ c, W.setup_autobox (autocenterFile o) = .ok c ∧
            opt = { o with x := c.1, y := c.2.1, z := c.2.2 })) →
        ((mappingFatal W.types W.files o.recmap ∨ mappingFatal W.types W.files o.ligmap) →
          (main W parsed).status = -1) ∧
        (∀ rm nr lm nl, createAtomTypeMap W.types W.files o.recmap = .ok (rm, nr) →
          createAtomTypeMap W.types W.files o.ligmap = .ok (lm, nl) →
          ((∃ e, W.newGridder opt rm lm = .error e) → (main W parsed).status = -1) ∧
          (∀ g, W.newGridder opt rm lm = .ok g →
            ((∃ e, receptorCall opt g = .error e) → (main W parsed).status = -1) ∧
            ((∃ e, Except.error e ∈ g.molecules) → (main W parsed).status = -1) ∧
            ((∃ k e, k < g.molecules.length ∧
                poseCall opt g (parmstrOf opt g) (k % 2 ^ 32) = .error e) →
              (main W parsed).status = -1) ∧
            (receptorCall opt g = .ok () → (∀ m ∈ g.molecules, m = .ok ()) →
              (∀ k, k < g.molecules.length →
                poseCall opt g (parmstrOf opt g) (k % 2 ^ 32) = .ok ()) →
              (main W parsed).status = 0)))) := by
    intro o hp hhelp hver
    subst hp
    rw [main_status_eq W o hhelp hver]
    constructor
    · rintro ⟨hinf, e, he⟩
      rw [resolveCenter_error W o hinf e he]
    · intro opt hopt
      have hc : (resolveCenter W o).2 = .ok opt := by
        rcases hopt with ⟨hfin, heq⟩ | ⟨hinf, c, hc, heq⟩
        · rw [heq, resolveCenter_finite W o hfin]
        · rw [heq]
          exact resolveCenter_ok W o hinf c hc
      obtain ⟨hrec, hlig⟩ := resolveCenter_maps W o opt hc
      rw [hc]
      simp only [hrec, hlig]
      constructor
      · intro hfatal
        cases hr : createAtomTypeMap W.types W.files o.recmap with
        | error c => exact createAtomTypeMap_error_code _ _ _ c hr
        | ok r =>
          obtain ⟨rm, nr⟩ := r
          simp only
          cases hl : createAtomTypeMap W.types W.files o.ligmap with
          | error c => exact createAtomTypeMap_error_code _ _ _ c hl
          | ok r2 =>
            rcases hfatal with hf | hf
            · obtain ⟨c, hcerr⟩ := (mappingFatal_iff _ _ _).mp hf
              rw [hr] at hcerr
              cases hcerr
            · obtain ⟨c, hcerr⟩ := (mappingFatal_iff _ _ _).mp hf
              rw [hl] at hcerr
              cases hcerr
      · intro rm nr lm nl hr hl
        rw [hr]
        simp only
        rw [hl]
        simp only
        constructor
        · rintro ⟨e, he⟩
          rw [he]
        · intro g hg
          rw [hg]
          simp only
          have hfail : (writeGrids opt g).2 ≠ .ok () →
              (match (writeGrids opt g).2 with
                | .error _ => (-1 : Int)
                | .ok _ => 0) = -1 := by
            intro hne
            cases hw : (writeGrids opt g).2 with
            | error e => rfl
            | ok u => cases u; exact absurd hw hne
          refine ⟨?_, ?_, ?_, ?_⟩
          · rintro ⟨e, he⟩
            apply hfail
            intro hok
            have := ((writeGrids_ok_iff opt g).mp hok).1
            rw [he] at this
            cases this
          · rintro ⟨e, he⟩
            apply hfail
            intro hok
            have := ((writeGrids_ok_iff opt g).mp hok).2.1 _ he
            cases this
          · rintro ⟨k, e, hk, he⟩
            apply hfail
            intro hok
            have := ((writeGrids_ok_iff opt g).mp hok).2.2 k hk
            rw [he] at this
            cases this
          · intro h1 h2 h3
            rw [(writeGrids_ok_iff opt g).mpr ⟨h1, h2, h3⟩]
  refine ⟨?_, ?_, ?_, hmain⟩
  · cases parsed with
    | none => exact Or.inr rfl
    | some o =>
      by_cases hhelp : o.help = true
      · left
        simp [main, parse_options, hhelp]
      · by_cases hver : o.version = true
        · left
          simp [main, parse_options, hhelp, hver]
        · have hhelp' : o.help = false := by simpa using hhelp
          have hver' : o.version = false := by simpa using hver
          rw [main_status_eq W o hhelp' hver']
          cases (resolveCenter W o).2 with
          | error e => exact Or.inr rfl
          | ok opt =>
            simp only
            cases hr : createAtomTypeMap W.types W.files opt.recmap with
            | error c => exact Or.inr (createAtomTypeMap_error_code _ _ _ c hr)
            | ok r =>
              obtain ⟨rm, nr⟩ := r
              simp only
              cases hl : createAtomTypeMap W.types W.files opt.ligmap with
              | error c => exact Or.inr (createAtomTypeMap_error_code _ _ _ c hl)
              | ok r2 =>
                obtain ⟨lm, nl⟩ := r2
                simp only
                cases W.newGridder opt rm lm with
                | error e => exact Or.inr rfl
                | ok g =>
                  simp only
                  cases (writeGrids opt g).2 with
                  | error e => exact Or.inr rfl
                  | ok u => exact Or.inl rfl
  · intro hp
    subst hp
    rfl
  · intro o hp hinfo
    subst hp
    by_cases hhelp : o.help = true
    · simp [main, parse_options, hhelp]
    · rcases hinfo with h | h
      · exact absurd h hhelp
      · simp [main, parse_options, hhelp, h]

/-- C8 at eight runs: a complete run; a help request that also names an unreadable mapping
file; a mapping file that cannot be opened; a parse error; an autocenter helper that
throws; a gridder constructor that throws; a `readMolecule` that throws on the second
molecule; an `outputLMDB` that throws on the file of the second pose. -/
theorem main_exit_status_witness :
    (main sampleWorld (some sampleOptions)).status = 0 ∧
    (main sampleWorld (some { sampleOptions with help := true, recmap := "none.map" })).status = 0 ∧
    (main sampleWorld (some { sampleOptions with recmap := "none.map" })).status = -1 ∧
    (main sampleWorld none).status = -1 ∧
    (main (worldWith (.ok readErrorGridder)) (some { sampleOptions with x := Dbl.nan })).status
      = -1 ∧
    (main (worldWith (.error { name := "rec.pdb", in_ := true })) (some sampleOptions)).status
      = -1 ∧
    (main (worldWith (.ok readErrorGridder)) (some sampleOptions)).status = -1 ∧
    (main (worldWith (.ok writeErrorGridder)) (some sampleOptions)).status = -1 :=
  ⟨((((main_exit_status sampleWorld (some sampleOptions)).2.2.2 sampleOptions rfl rfl rfl).2
      sampleOptions (Or.inl ⟨rfl, rfl⟩)).2 [-1, 0, 1, 2] 3 [-1, 0, 1, 2] 3 rfl rfl).2
      (sampleGridder 2) rfl |>.2.2.2 rfl (fun _ hm => List.eq_of_mem_replicate hm)
      (fun _ _ => rfl),
   ((main_exit_status sampleWorld
      (some { sampleOptions with help := true, recmap := "none.map" })).2.2.1 _ rfl
      (Or.inl rfl)).1,
   (((main_exit_status sampleWorld (some { sampleOptions with recmap := "none.map" })).2.2.2
      _ rfl rfl rfl).2 _ (Or.inl ⟨rfl, rfl⟩)).1 (Or.inl ⟨by decide, Or.inl rfl⟩),
   (main_exit_status sampleWorld none).2.1 rfl,
   ((main_exit_status (worldWith (.ok readErrorGridder))
      (some { sampleOptions with x := Dbl.nan })).2.2.2 _ rfl rfl rfl).1
      ⟨rfl, { name := "ref.sdf", in_ := true }, rfl⟩,
   ((((main_exit_status (worldWith (.error { name := "rec.pdb", in_ := true }))
      (some sampleOptions)).2.2.2 sampleOptions rfl rfl rfl).2
      sampleOptions (Or.inl ⟨rfl, rfl⟩)).2 [-1, 0, 1, 2] 3 [-1, 0, 1, 2] 3 rfl rfl).1
      ⟨{ name := "rec.pdb", in_ := true }, rfl⟩,
   ((((main_exit_status (worldWith (.ok readErrorGridder)) (some sampleOptions)).2.2.2
      sampleOptions rfl rfl rfl).2
      sampleOptions (Or.inl ⟨rfl, rfl⟩)).2 [-1, 0, 1, 2] 3 [-1, 0, 1, 2] 3 rfl rfl).2
      readErrorGridder rfl |>.2.1
      ⟨{ name := "lig.sdf", in_ := true }, List.mem_cons_of_mem _ (List.mem_cons_self _ _)⟩,
   ((((main_exit_status (worldWith (.ok writeErrorGridder)) (some sampleOptions)).2.2.2
      sampleOptions rfl rfl rfl).2
      sampleOptions (Or.inl ⟨rfl, rfl⟩)).2 [-1, 0, 1, 2] 3 [-1, 0, 1, 2] 3 rfl rfl).2
      writeErrorGridder rfl |>.2.2.1
      ⟨1, { name := "out_1.24_0.5_rec_lig.binmap", in_ := false }, by decide, rfl⟩⟩

end gninagrid
